import Mathlib

/-!
Verification of the FreeFocus/EyeMotion IPC core (`src/ipc/clientserver.py`,
`src/cli.py`, `src/ipc/engine.py`): a length-prefixed framing codec over a
loopback socket, readiness-polled connection lifecycles, buffered partial
I/O, and a command-dispatch registry.

Modelling conventions:
* A Python `str` is modelled as `PyStr := List Nat`, its sequence of Unicode
  code points (exactly what CPython's `str` is).
* Byte strings (`bytes` / `bytearray`) are modelled as `List Nat` with each
  element a byte value.
* Python exceptions are modelled with `Except PyError`; `.error` marks a
  raised exception propagating out of the modelled code.
* `esper` entity presence for singleton lifecycle objects (Connection,
  Listener, PendingConnection) is modelled as `Bool` flags: every creation
  site in the source is guarded by an absence check
  (`if any(esper.get_component(...)): return`), and the world starts empty,
  so entity multiplicity never exceeds one for these component types.
-/

set_option maxRecDepth 4000

/-- A Python `str` as its list of Unicode code points. -/
abbrev PyStr := List Nat

/-- Code points of a Lean string literal; used to transcribe the Python
string literals appearing in the source. -/
def pyChars (s : String) : PyStr := s.data.map Char.toNat

/-- `class Command(msgspec.Struct, tag=True)` from `ipc/clientserver.py`
(also duplicated verbatim in `cli.py`): a command name and its arguments. -/
structure Command where
  name : PyStr
  arguments : List PyStr
deriving DecidableEq

/-- `class Response(msgspec.Struct, tag=True)`: success flag and a display
message. -/
structure Response where
  succeeded : Bool
  message : PyStr
deriving DecidableEq

/-- The tagged union `Union[Command, Response]` used by the wire decoder. -/
inductive Message where
  | command (c : Command)
  | response (r : Response)
deriving DecidableEq

/-- Python exceptions that the modelled code can raise. -/
inductive PyError where
  | connectionError
  | typeError
  | decodeError
deriving DecidableEq

/-! ## Dispatcher (`Parse` processor, clientserver.py lines 196-215) -/

/-- `Parser` registration record (`@dataclass class Parser`): key and
description; the callback itself is identified in dispatch results by the
parser's position in the registration-ordered registry. -/
structure Parser where
  key : PyStr
  description : PyStr
deriving DecidableEq

/-- `Parse._emit_help_response`'s message: `"Supported commands:"` followed
by one `"\n\t=> key: description"` line per registered parser (registration
order) and the literal trailing `"\n\t=> help: show this message"` line. -/
def helpMessage (registry : List Parser) : PyStr :=
  pyChars ("Supported commands:")
    ++ (registry.map (fun p => pyChars ("\n\t=> ") ++ p.key ++ pyChars (": ") ++ p.description)).flatten
    ++ pyChars ("\n\t=> help: show this message")

/-- Outcome of dispatching one inbound Command: either the callback of the
parser at a given registry index is invoked with the given argument list,
or the fallback help Response is synthesized. -/
inductive DispatchResult where
  | invoked (index : Nat) (args : List PyStr)
  | fallback (succeeded : Bool) (message : PyStr)
deriving DecidableEq

/-- The scan `for _, parser in esper.get_component(Parser): if parser.key ==
command.name: parser.parse(command.arguments); return` — first match in
registration order, carrying the running index. -/
def dispatchAux : List Parser → Nat → Command → Option (Nat × List PyStr)
  | [], _, _ => none
  | p :: ps, i, c => if p.key = c.name then some (i, c.arguments) else dispatchAux ps (i + 1) c

/-- Dispatch of a single inbound Command per `Parse.process`: first-match
invocation, else the fallback help Response with
`succeeded = (command.name == "help")`. -/
def dispatchCommand (registry : List Parser) (c : Command) : DispatchResult :=
  match dispatchAux registry 0 c with
  | some (i, args) => .invoked i args
  | none => .fallback (decide (c.name = pyChars ("help"))) (helpMessage registry)

/-- One full `Parse.process` tick over the queue of pending Command
entities, oldest first: a matched Command triggers its parser and `return`s
(later Commands stay queued); an unmatched Command yields the fallback
Response and the loop continues with the next Command. -/
def parseTick (registry : List Parser) : List Command → List DispatchResult × List Command
  | [] => ([], [])
  | c :: rest =>
    match dispatchAux registry 0 c with
    | some (i, args) => ([.invoked i args], rest)
    | none =>
      let t := parseTick registry rest
      (.fallback (decide (c.name = pyChars ("help"))) (helpMessage registry) :: t.1, t.2)

/-! ## User input (`forward_user_input`, clientserver.py lines 140-144;
`eval_user_input_as_command`, cli.py lines 241-245) -/

/-- Whitespace for CPython's `str.split()` / `str.strip()` with no
arguments (`Py_UNICODE_ISSPACE`): ASCII whitespace, the C0 separators
0x1C-0x1F, and the Unicode space characters. -/
def pyIsSpace (c : Nat) : Bool :=
  (0x09 ≤ c && c ≤ 0x0D) || (0x1C ≤ c && c ≤ 0x1F) || c = 0x20 || c = 0x85 || c = 0xA0
    || c = 0x1680 || (0x2000 ≤ c && c ≤ 0x200A) || c = 0x2028 || c = 0x2029 || c = 0x202F
    || c = 0x205F || c = 0x3000

/-- CPython `str.strip()`: drop leading and trailing whitespace. -/
def pyStrip (s : PyStr) : PyStr :=
  ((s.dropWhile pyIsSpace).reverse.dropWhile pyIsSpace).reverse

/-- Fuel-indexed worker for `pySplit`; every step consumes one fuel unit
and at least one character, so fuel equal to the input length always
suffices (`pySplitF_fuel_invariant`). -/
def pySplitF : Nat → PyStr → List PyStr
  | _, [] => []
  | 0, _ :: _ => []
  | f + 1, c :: cs =>
    if pyIsSpace c then pySplitF f cs
    else (c :: cs.takeWhile (fun d => !pyIsSpace d))
      :: pySplitF f (cs.dropWhile (fun d => !pyIsSpace d))

/-- CPython `str.split()` with no separator: the maximal runs of
non-whitespace characters, in order, with empty runs discarded. -/
def pySplit (s : PyStr) : List PyStr := pySplitF s.length s

/-- `forward_user_input` / `eval_user_input_as_command`:
`split_input = user_input.strip().split()`; an empty token list yields no
Command (state unchanged), otherwise `Command(split_input[0],
split_input[1:])` is created. -/
def eval_user_input_as_command (userInput : PyStr) : Option Command :=
  match pySplit (pyStrip userInput) with
  | [] => none
  | name :: args => some { name := name, arguments := args }

/-! ## Outbound queue (`Flush` processor, clientserver.py lines 104-115) -/

/-- `Flush.process` on one writable Connection, given the number of bytes
the transport accepted for the head frame: empty queue does nothing; a
zero-length send raises `ConnectionError`; a short send replaces the head
with the unsent remainder; a full send pops the head. -/
def flush_process : List (List Nat) → Nat → Except PyError (List (List Nat))
  | [], _ => .ok []
  | toSend :: rest, accepted =>
    if accepted = 0 then .error .connectionError
    else if accepted < toSend.length then .ok (toSend.drop accepted :: rest)
    else .ok rest

/-- Bytes actually handed to the transport by one `Flush.process` tick:
the accepted-length prefix of the head frame. -/
def flushSent : List (List Nat) → Nat → List Nat
  | [], _ => []
  | toSend :: _, accepted => toSend.take accepted

/-- Length of the queue head (0 for an empty queue). -/
def headLen : List (List Nat) → Nat
  | [] => 0
  | h :: _ => h.length

/-- Iterated `Flush.process` ticks for a given list of accepted byte
counts, collecting the transmitted byte stream and the final queue. -/
def flushRun : List (List Nat) → List Nat → List Nat × List (List Nat)
  | q, [] => ([], q)
  | q, k :: ks =>
    match flush_process q k with
    | .ok q2 =>
      let r := flushRun q2 ks
      (flushSent q k ++ r.1, r.2)
    | .error _ => ([], q)

/-- A list of per-tick accepted byte counts is valid when each count is
positive and no larger than the current head frame (the socket `send`
contract), and no tick errors out. -/
def validCounts : List (List Nat) → List Nat → Bool
  | _, [] => true
  | q, k :: ks =>
    decide (0 < k) && decide (k ≤ headLen q)
      && (match flush_process q k with
          | .ok q2 => validCounts q2 ks
          | .error _ => false)

/-! ## Lifecycle state machines (`Listen`, clientserver.py lines 148-176;
`Connect`, clientserver.py lines 222-246)

Entity presence is a `Bool` per the module header note: creation sites are
guarded by absence checks, so these components are singletons. States are
observed at tick boundaries (after `esper.process()` has cleared
deferred-deleted entities). -/

/-- Listening-role world: does a Connection / a Listener entity exist. -/
structure ListenWorld where
  connection : Bool
  listener : Bool
deriving DecidableEq

/-- One `Listen.process` tick, given whether the (possibly just created)
listening socket polls readable: with a Connection present do nothing;
otherwise `_ensure_listener` guarantees a Listener, and a readable Listener
accepts one connection, creating the Connection and destroying the
Listener. -/
def listen_process (w : ListenWorld) (readable : Bool) : ListenWorld :=
  if w.connection then w
  else if readable then { connection := true, listener := false }
  else { w with listener := true }

/-- External events interleaved with `Listen.process` ticks: a tick with
the polled readability, or destruction of the Connection on peer
disconnect. -/
inductive ListenEvent where
  | tick (readable : Bool)
  | disconnect

/-- Apply one listening-role event. -/
def listen_step (w : ListenWorld) : ListenEvent → ListenWorld
  | .tick r => listen_process w r
  | .disconnect => { w with connection := false }

/-- Run the listening role from a world over a list of events. -/
def listen_run (w : ListenWorld) : List ListenEvent → ListenWorld
  | [] => w
  | e :: es => listen_run (listen_step w e) es

/-- Connecting-role world: does a Connection / a PendingConnection exist. -/
structure ConnectWorld where
  connection : Bool
  pending : Bool
deriving DecidableEq

/-- One `Connect.process` tick, given whether the pending socket polls
writable: with a Connection present do nothing; otherwise
`_ensure_connection_attempt` guarantees a PendingConnection, and a writable
pending socket is promoted to a Connection, deleting the pending wrapper. -/
def connect_process (w : ConnectWorld) (writable : Bool) : ConnectWorld :=
  if w.connection then w
  else if writable then { connection := true, pending := false }
  else { w with pending := true }

/-- External events for the connecting role. -/
inductive ConnectEvent where
  | tick (writable : Bool)
  | disconnect

/-- Apply one connecting-role event. -/
def connect_step (w : ConnectWorld) : ConnectEvent → ConnectWorld
  | .tick r => connect_process w r
  | .disconnect => { w with connection := false }

/-- Run the connecting role from a world over a list of events. -/
def connect_run (w : ConnectWorld) : List ConnectEvent → ConnectWorld
  | [] => w
  | e :: es => connect_run (connect_step w e) es

/-! ## Framing codec (clientserver.py lines 41-62, duplicated in cli.py)

`encode_object` is `struct.pack('!I', len(payload)) + payload` with
`payload = msgspec.json.encode(object)`; `decode_object` reads the 4-byte
big-endian length and runs `msgspec.json.Decoder(Union[Command,
Response]).decode` on everything after the prefix.  The msgspec layer is
modelled concretely below: JSON text over UTF-8 bytes, standard string
escapes, and the decoder's strictness (the whole buffer handed to
`Decoder.decode` must be exactly one JSON value plus optional whitespace;
trailing bytes raise `msgspec.DecodeError`). -/

/-- UTF-8 encoding of one Unicode code point (as CPython/msgspec emit it). -/
def utf8EncodeCp (n : Nat) : List Nat :=
  if n < 0x80 then [n]
  else if n < 0x800 then [0xC0 + n / 64, 0x80 + n % 64]
  else if n < 0x10000 then [0xE0 + n / 4096, 0x80 + n / 64 % 64, 0x80 + n % 64]
  else [0xF0 + n / 262144, 0x80 + n / 4096 % 64, 0x80 + n / 64 % 64, 0x80 + n % 64]

/-- UTF-8 encoding of a Python string (its code point sequence). -/
def utf8Str (s : PyStr) : List Nat := (s.map utf8EncodeCp).flatten

/-- UTF-8 decoding of one code point from the front of a byte list,
rejecting malformed leads, bad continuations and overlong forms. -/
def utf8DecodeCp : List Nat → Option (Nat × List Nat)
  | [] => none
  | b :: bs =>
    if b < 0x80 then some (b, bs)
    else if b < 0xC2 then none
    else if b < 0xE0 then
      match bs with
      | c :: r =>
        if 0x80 ≤ c ∧ c < 0xC0 then some ((b - 0xC0) * 64 + (c - 0x80), r) else none
      | [] => none
    else if b < 0xF0 then
      match bs with
      | c :: d :: r =>
        if (0x80 ≤ c ∧ c < 0xC0) ∧ (0x80 ≤ d ∧ d < 0xC0) then
          if (b - 0xE0) * 4096 + (c - 0x80) * 64 + (d - 0x80) < 0x800 then none
          else some ((b - 0xE0) * 4096 + (c - 0x80) * 64 + (d - 0x80), r)
        else none
      | _ => none
    else if b < 0xF5 then
      match bs with
      | c :: d :: e :: r =>
        if (0x80 ≤ c ∧ c < 0xC0) ∧ (0x80 ≤ d ∧ d < 0xC0) ∧ (0x80 ≤ e ∧ e < 0xC0) then
          if (b - 0xF0) * 262144 + (c - 0x80) * 4096 + (d - 0x80) * 64 + (e - 0x80) < 0x10000
              ∨ 0x110000 ≤ (b - 0xF0) * 262144 + (c - 0x80) * 4096 + (d - 0x80) * 64 + (e - 0x80)
          then none
          else some ((b - 0xF0) * 262144 + (c - 0x80) * 4096 + (d - 0x80) * 64 + (e - 0x80), r)
        else none
      | _ => none
    else none

/-- UTF-8 decoding of a whole byte list into code points (fuel-indexed; a
code point costs one fuel unit and at least one byte, so fuel equal to the
byte count always suffices). -/
def utf8DecodeAll : Nat → List Nat → Option PyStr
  | _, [] => some []
  | 0, _ :: _ => none
  | f + 1, b :: bs =>
    match utf8DecodeCp (b :: bs) with
    | some (n, rest) =>
      match utf8DecodeAll f rest with
      | some s => some (n :: s)
      | none => none
    | none => none

/-- Lowercase hexadecimal digit byte for a value below 16. -/
def hexDigitByte (d : Nat) : Nat := if d < 10 then 0x30 + d else 0x57 + d

/-- JSON string escaping of one payload byte, as the msgspec encoder does
it: `"` and `\` escaped, the usual C0 short escapes, `\u00XX` for the
remaining control bytes, everything else verbatim. -/
def jsonEscapeByte (b : Nat) : List Nat :=
  if b = 0x22 then [0x5C, 0x22]
  else if b = 0x5C then [0x5C, 0x5C]
  else if b = 0x08 then [0x5C, 0x62]
  else if b = 0x09 then [0x5C, 0x74]
  else if b = 0x0A then [0x5C, 0x6E]
  else if b = 0x0C then [0x5C, 0x66]
  else if b = 0x0D then [0x5C, 0x72]
  else if b < 0x20 then [0x5C, 0x75, 0x30, 0x30, hexDigitByte (b / 16), hexDigitByte (b % 16)]
  else [b]

/-- Escape every byte of a JSON string body. -/
def escapeBytes (bs : List Nat) : List Nat := (bs.map jsonEscapeByte).flatten

/-- Printed JSON string literal for the given (already UTF-8 encoded)
content bytes. -/
def jsonStrB (content : List Nat) : List Nat := 0x22 :: escapeBytes content ++ [0x22]

/-- Printed JSON string literal for a Python string. -/
def jsonStringBytes (s : PyStr) : List Nat := jsonStrB (utf8Str s)

/-- Comma-separated concatenation of printed JSON values. -/
def sepByComma : List (List Nat) → List Nat
  | [] => []
  | [x] => x
  | x :: xs => x ++ 0x2C :: sepByComma xs

/-- `msgspec.json.encode` of a tagged `Command`:
`{"type":"Command","name":<name>,"arguments":[<args>]}` (the `0x7B`/`0x7D`
constants are the brace bytes, `0x3A` the colon, `0x2C` the comma,
`0x5B`/`0x5D` the brackets). -/
def commandPayload (name : PyStr) (args : List PyStr) : List Nat :=
  [0x7B] ++ jsonStringBytes (pyChars ("type")) ++ [0x3A]
    ++ jsonStringBytes (pyChars ("Command")) ++ [0x2C]
    ++ jsonStringBytes (pyChars ("name")) ++ [0x3A] ++ jsonStringBytes name ++ [0x2C]
    ++ jsonStringBytes (pyChars ("arguments")) ++ [0x3A, 0x5B]
    ++ sepByComma (args.map jsonStringBytes) ++ [0x5D, 0x7D]

/-- `msgspec.json.encode` of a tagged `Response`:
`{"type":"Response","succeeded":<bool>,"message":<message>}`. -/
def responsePayload (succeeded : Bool) (message : PyStr) : List Nat :=
  [0x7B] ++ jsonStringBytes (pyChars ("type")) ++ [0x3A]
    ++ jsonStringBytes (pyChars ("Response")) ++ [0x2C]
    ++ jsonStringBytes (pyChars ("succeeded")) ++ [0x3A]
    ++ (if succeeded then pyChars ("true") else pyChars ("false")) ++ [0x2C]
    ++ jsonStringBytes (pyChars ("message")) ++ [0x3A] ++ jsonStringBytes message ++ [0x7D]

/-- `msgspec.json.encode` on the tagged union: the JSON payload bytes. -/
def msgspecJsonEncode : Message → List Nat
  | .command c => commandPayload c.name c.arguments
  | .response r => responsePayload r.succeeded r.message

/-- Parsed JSON values as the decoder sees them; string contents are kept
as raw (unescaped) UTF-8 bytes, numeric tokens are kept unparsed since the
typed decoder rejects numbers in all positions of this protocol anyway. -/
inductive JVal where
  | jstr (content : List Nat)
  | jbool (b : Bool)
  | jnull
  | jnum (token : List Nat)
  | jarr (elems : List JVal)
  | jobj (fields : List (List Nat × JVal))

/-- JSON insignificant whitespace bytes. -/
def isWsByte (b : Nat) : Bool := b = 0x20 || b = 0x09 || b = 0x0A || b = 0x0D

/-- Skip leading JSON whitespace. -/
def skipWs : List Nat → List Nat
  | [] => []
  | b :: bs => if isWsByte b then skipWs bs else b :: bs

/-- Bytes allowed inside a numeric token (scanned coarsely; the typed
decoder rejects numbers wherever this protocol could meet them, so the
exact numeric grammar is immaterial). -/
def isNumByte (b : Nat) : Bool :=
  (0x30 ≤ b && b ≤ 0x39) || b = 0x2D || b = 0x2B || b = 0x2E || b = 0x65 || b = 0x45

/-- Value of a hexadecimal digit byte. -/
def hexVal (b : Nat) : Option Nat :=
  if 0x30 ≤ b ∧ b ≤ 0x39 then some (b - 0x30)
  else if 0x61 ≤ b ∧ b ≤ 0x66 then some (b - 0x57)
  else if 0x41 ≤ b ∧ b ≤ 0x46 then some (b - 0x37)
  else none

/-- One JSON string escape sequence (after the backslash).  `\uXXXX`
escapes for non-surrogate code points are re-encoded as UTF-8 content
bytes; surrogate-pair escapes are not modelled (the encoder never emits
them for this protocol). -/
def parseEscape : List Nat → Option (List Nat × List Nat)
  | 0x22 :: r => some ([0x22], r)
  | 0x5C :: r => some ([0x5C], r)
  | 0x2F :: r => some ([0x2F], r)
  | 0x62 :: r => some ([0x08], r)
  | 0x66 :: r => some ([0x0C], r)
  | 0x6E :: r => some ([0x0A], r)
  | 0x72 :: r => some ([0x0D], r)
  | 0x74 :: r => some ([0x09], r)
  | 0x75 :: h1 :: h2 :: h3 :: h4 :: r =>
    match hexVal h1, hexVal h2, hexVal h3, hexVal h4 with
    | some a, some b, some c, some d =>
      if 0xD800 ≤ ((a * 16 + b) * 16 + c) * 16 + d ∧ ((a * 16 + b) * 16 + c) * 16 + d < 0xE000
      then none
      else some (utf8EncodeCp (((a * 16 + b) * 16 + c) * 16 + d), r)
    | _, _, _, _ => none
  | _ => none

mutual

/-- Recursive-descent JSON value parser (fuel-indexed; every recursive
call in this mutual block spends one fuel unit, and the top-level caller
supplies fuel well above what any buffer of its length can spend). -/
def parseValue : Nat → List Nat → Option (JVal × List Nat)
  | 0, _ => none
  | f + 1, bs =>
    match skipWs bs with
    | [] => none
    | b :: r =>
      if b = 0x22 then
        match parseStringBody f r with
        | some (content, rest) => some (.jstr content, rest)
        | none => none
      else if b = 0x7B then
        match parseMembers f r with
        | some (fields, rest) => some (.jobj fields, rest)
        | none => none
      else if b = 0x5B then
        match parseElems f r with
        | some (elems, rest) => some (.jarr elems, rest)
        | none => none
      else if b = 0x74 then
        if r.take 3 = [0x72, 0x75, 0x65] then some (.jbool true, r.drop 3) else none
      else if b = 0x66 then
        if r.take 4 = [0x61, 0x6C, 0x73, 0x65] then some (.jbool false, r.drop 4) else none
      else if b = 0x6E then
        if r.take 3 = [0x75, 0x6C, 0x6C] then some (.jnull, r.drop 3) else none
      else if b = 0x2D ∨ (0x30 ≤ b ∧ b ≤ 0x39) then
        some (.jnum (b :: r.takeWhile isNumByte), r.dropWhile isNumByte)
      else none

/-- JSON string body after the opening quote: raw bytes up to the closing
quote, with escapes resolved by `parseEscape`. -/
def parseStringBody : Nat → List Nat → Option (List Nat × List Nat)
  | 0, _ => none
  | f + 1, bs =>
    match bs with
    | [] => none
    | b :: r =>
      if b = 0x22 then some ([], r)
      else if b = 0x5C then
        match parseEscape r with
        | some (out, r2) =>
          match parseStringBody f r2 with
          | some (content, rest) => some (out ++ content, rest)
          | none => none
        | none => none
      else
        match parseStringBody f r with
        | some (content, rest) => some (b :: content, rest)
        | none => none

/-- Object members after the opening brace: empty object or a
comma-separated member list. -/
def parseMembers : Nat → List Nat → Option (List (List Nat × JVal) × List Nat)
  | 0, _ => none
  | f + 1, bs =>
    match skipWs bs with
    | [] => none
    | b :: r =>
      if b = 0x7D then some ([], r)
      else parseMembers1 f bs

/-- One or more comma-separated `"key": value` members, ending at the
closing brace. -/
def parseMembers1 : Nat → List Nat → Option (List (List Nat × JVal) × List Nat)
  | 0, _ => none
  | f + 1, bs =>
    match skipWs bs with
    | [] => none
    | b :: r =>
      if b = 0x22 then
        match parseStringBody f r with
        | some (key, r2) =>
          match skipWs r2 with
          | [] => none
          | c :: r3 =>
            if c = 0x3A then
              match parseValue f r3 with
              | some (v, r4) =>
                match skipWs r4 with
                | [] => none
                | d :: r5 =>
                  if d = 0x7D then some ([(key, v)], r5)
                  else if d = 0x2C then
                    match parseMembers1 f r5 with
                    | some (ms, rest) => some ((key, v) :: ms, rest)
                    | none => none
                  else none
              | none => none
            else none
        | none => none
      else none

/-- Array elements after the opening bracket: empty array or a
comma-separated element list. -/
def parseElems : Nat → List Nat → Option (List JVal × List Nat)
  | 0, _ => none
  | f + 1, bs =>
    match skipWs bs with
    | [] => none
    | b :: _ =>
      if b = 0x5D then some ([], (skipWs bs).drop 1)
      else parseElems1 f bs

/-- One or more comma-separated array elements, ending at the closing
bracket. -/
def parseElems1 : Nat → List Nat → Option (List JVal × List Nat)
  | 0, _ => none
  | f + 1, bs =>
    match parseValue f bs with
    | some (v, r) =>
      match skipWs r with
      | [] => none
      | d :: r2 =>
        if d = 0x5D then some ([v], r2)
        else if d = 0x2C then
          match parseElems1 f r2 with
          | some (vs, rest) => some (v :: vs, rest)
          | none => none
        else none
    | none => none

end

/-- First field of a JSON object with the given key (msgspec reads the tag
and the struct fields by name, independent of their position). -/
def lookupField : List (List Nat × JVal) → List Nat → Option JVal
  | [], _ => none
  | (k, v) :: fs, key => if k = key then some v else lookupField fs key

/-- Decode a parsed JSON array as a list of Python strings. -/
def decodeStrList : List JVal → Option (List PyStr)
  | [] => some []
  | .jstr bs :: vs =>
    match utf8DecodeAll bs.length bs with
    | some s =>
      match decodeStrList vs with
      | some ss => some (s :: ss)
      | none => none
    | none => none
  | _ :: _ => none

/-- Typed conversion of a parsed JSON value into the tagged union
`Union[Command, Response]`, dispatching on the `"type"` tag field exactly
as msgspec does; any shape mismatch is a decode error (`none`). -/
def jvalToMessage : JVal → Option Message
  | .jobj fields =>
    match lookupField fields (pyChars ("type")) with
    | some (.jstr t) =>
      if t = pyChars ("Command") then
        match lookupField fields (pyChars ("name")), lookupField fields (pyChars ("arguments")) with
        | some (.jstr nb), some (.jarr avs) =>
          match utf8DecodeAll nb.length nb, decodeStrList avs with
          | some n, some args => some (.command { name := n, arguments := args })
          | _, _ => none
        | _, _ => none
      else if t = pyChars ("Response") then
        match lookupField fields (pyChars ("succeeded")), lookupField fields (pyChars ("message")) with
        | some (.jbool b), some (.jstr mb) =>
          match utf8DecodeAll mb.length mb with
          | some msg => some (.response { succeeded := b, message := msg })
          | none => none
        | _, _ => none
      else none
    | _ => none
  | _ => none

/-- `msgspec.json.Decoder(Union[Command, Response]).decode` on a whole
buffer: exactly one JSON value, optionally surrounded by whitespace; any
trailing non-whitespace byte, parse failure, or type mismatch raises
`msgspec.DecodeError` (modelled as `none`). -/
def msgspecDecode (bs : List Nat) : Option Message :=
  match parseValue (3 * bs.length + 8) bs with
  | some (v, rest) => if skipWs rest = [] then jvalToMessage v else none
  | none => none

/-! ## Length-prefixed framing (clientserver.py lines 41-62) -/

/-- `struct.pack('!I', n)`: the 4-byte big-endian encoding (the source
never reaches the packer's own overflow error for the payloads the round
trip law quantifies over; theorems carry the `< 2^32` precondition). -/
def pack4BE (n : Nat) : List Nat :=
  [n / 0x1000000 % 0x100, n / 0x10000 % 0x100, n / 0x100 % 0x100, n % 0x100]

/-- `struct.unpack('!I', bs[:4])[0]` for a buffer with at least 4 bytes. -/
def unpack4BE (b0 b1 b2 b3 : Nat) : Nat :=
  ((b0 * 0x100 + b1) * 0x100 + b2) * 0x100 + b3

/-- `encode_object`: the msgspec JSON payload prefixed with the 4-byte
big-endian payload length. -/
def encode_object (m : Message) : List Nat :=
  pack4BE (msgspecJsonEncode m).length ++ msgspecJsonEncode m

/-- `split_encoded_length_from_object`: with at least `LENGTH_SIZE = 4`
bytes, the unpacked length and the bytes after the prefix; otherwise the
function falls through and returns Python's implicit `None`. -/
def split_encoded_length_from_object (bs : List Nat) : Option (Nat × List Nat) :=
  match bs with
  | b0 :: b1 :: b2 :: b3 :: rest => some (unpack4BE b0 b1 b2 b3, rest)
  | _ => none

/-- `decode_object`: the tuple unpacking `object_length, to_parse = ...`
raises `TypeError` when `split_encoded_length_from_object` returned the
bare `None`; with enough buffered bytes the msgspec decoder runs on all of
`to_parse` (raising `DecodeError` on failure) and the remainder after
`object_length` bytes is returned; with too few bytes the buffer is
returned unchanged alongside `None`. -/
def decode_object (bs : List Nat) : Except PyError (Option Message × List Nat) :=
  match split_encoded_length_from_object bs with
  | none => .error .typeError
  | some (objectLength, toParse) =>
    if objectLength ≤ toParse.length then
      match msgspecDecode toParse with
      | some m => .ok (some m, toParse.drop objectLength)
      | none => .error .decodeError
    else .ok (none, bs)

/-- `Read.process` for one readable Connection (clientserver.py lines
91-102): a zero-length `recv` raises `ConnectionError`; otherwise the new
bytes are appended to the inbound buffer and `decode_object` is attempted
once, yielding at most one parsed Message and the new buffer. -/
def read_process (buf newData : List Nat) : Except PyError (Option Message × List Nat) :=
  if newData.length = 0 then .error .connectionError
  else decode_object (buf ++ newData)

/-! ## cli.py server tick (`SocketReader.read` lines 76-85,
`CurrentConnection` lines 156-163, `reset_connection` lines 123-134) -/

/-- cli.py server-side world: does a Connection / a Listener exist
(observed at tick boundaries, after deferred entity deletes are cleared). -/
structure CliWorld where
  connection : Bool
  listener : Bool
deriving DecidableEq

/-- `reset_connection`: delete every Connection entity, then build and
register a fresh bound-and-listening Listener. -/
def reset_connection (w : CliWorld) : CliWorld :=
  { w with connection := false, listener := true }

/-- Outcome of the one non-blocking `recv` a read tick performs. -/
inductive ReadOutcome where
  | zeroLength
  | payload (bs : List Nat)
  | notReadable

/-- `SocketReader.read(blocking=False)`: nothing when the socket is not
readable; a zero-length `recv` raises `ConnectionError`; otherwise the new
bytes extend the buffer and `decode_object` is attempted once. -/
def socketReader_read (o : ReadOutcome) (buf : List Nat) :
    Except PyError (Option Message × List Nat) :=
  match o with
  | .notReadable => .ok (none, buf)
  | .zeroLength => .error .connectionError
  | .payload bs => decode_object (buf ++ bs)

/-- The read step of cli.py's `Parse.process`, run inside `with
CurrentConnection()`: absent a Connection the body does nothing;
`CurrentConnection.__exit__` catches exactly `ConnectionError`, dispatches
`CLI_RESET_CONNECTION` and suppresses the exception; any other exception
propagates. -/
def parse_tick_read (w : CliWorld) (o : ReadOutcome) (buf : List Nat) :
    Except PyError (Option Message × List Nat × CliWorld) :=
  if w.connection then
    match socketReader_read o buf with
    | .ok (msg, buf2) => .ok (msg, buf2, w)
    | .error .connectionError => .ok (none, buf, reset_connection w)
    | .error e => .error e
  else .ok (none, buf, w)

deriving instance DecidableEq for Except

/-! # Theorems -/

/-! ## Dispatcher lemmas -/

theorem dispatchAux_eq_none (ps : List Parser) (c : Command) (k : Nat)
    (h : ∀ p ∈ ps, p.key ≠ c.name) : dispatchAux ps k c = none := by
  induction ps generalizing k with
  | nil => rfl
  | cons p t ih =>
    simp only [dispatchAux]
    rw [if_neg (h p (List.mem_cons_self p t))]
    exact ih (k + 1) (fun q hq => h q (List.mem_cons_of_mem p hq))

theorem dispatchAux_eq_first (ps : List Parser) (c : Command) (i k : Nat)
    (hi : (ps[i]?).map Parser.key = some c.name)
    (hfirst : ∀ j, j < i → (ps[j]?).map Parser.key ≠ some c.name) :
    dispatchAux ps k c = some (k + i, c.arguments) := by
  induction ps generalizing i k with
  | nil => simp at hi
  | cons p t ih =>
    cases i with
    | zero =>
      simp only [List.getElem?_cons_zero, Option.map_some] at hi
      simp only [dispatchAux]
      rw [if_pos (Option.some.inj hi)]
      simp
    | succ i' =>
      have hp : p.key ≠ c.name := by
        have := hfirst 0 (Nat.succ_pos i')
        simp only [List.getElem?_cons_zero, Option.map_some] at this
        exact fun hk => this (congrArg some hk)
      simp only [dispatchAux]
      rw [if_neg hp]
      have h2 := ih i' (k + 1) (by simpa using hi)
        (fun j hj => by simpa using hfirst (j + 1) (Nat.succ_lt_succ hj))
      rw [h2]
      have h3 : k + 1 + i' = k + (i' + 1) := by omega
      rw [h3]

theorem helpMessage_suffix (registry : List Parser) :
    pyChars ("help: show this message") <:+ helpMessage registry := by
  refine ⟨pyChars ("Supported commands:")
    ++ (registry.map (fun p => pyChars ("\n\t=> ") ++ p.key ++ pyChars (": ") ++ p.description)).flatten
    ++ pyChars ("\n\t=> "), ?_⟩
  unfold helpMessage
  have hsplit : pyChars ("\n\t=> help: show this message")
      = pyChars ("\n\t=> ") ++ pyChars ("help: show this message") := by decide
  rw [hsplit]
  simp [List.append_assoc]

theorem helpMessage_lists_entry (registry : List Parser) (p : Parser) (hp : p ∈ registry) :
    (pyChars ("\n\t=> ") ++ p.key ++ pyChars (": ") ++ p.description) <:+: helpMessage registry := by
  have h1 : (pyChars ("\n\t=> ") ++ p.key ++ pyChars (": ") ++ p.description)
      ∈ registry.map (fun q => pyChars ("\n\t=> ") ++ q.key ++ pyChars (": ") ++ q.description) :=
    List.mem_map_of_mem _ hp
  have h2 := List.infix_of_mem_flatten h1
  refine h2.trans ⟨pyChars ("Supported commands:"), pyChars ("\n\t=> help: show this message"), ?_⟩
  unfold helpMessage
  simp [List.append_assoc]

/-- C5: an inbound Command matching no registered Parser key produces the
fallback Response with `succeeded = (name == "help")` and a message that
lists every registered `key: description` pair and ends with the literal
`help: show this message` line. -/
theorem claim_C5_fallback_help (registry : List Parser) (c : Command)
    (h : ∀ p ∈ registry, p.key ≠ c.name) :
    dispatchCommand registry c
        = .fallback (decide (c.name = pyChars ("help"))) (helpMessage registry)
    ∧ pyChars ("help: show this message") <:+ helpMessage registry
    ∧ ∀ p ∈ registry,
        (pyChars ("\n\t=> ") ++ p.key ++ pyChars (": ") ++ p.description) <:+: helpMessage registry := by
  refine ⟨?_, helpMessage_suffix registry, fun p hp => helpMessage_lists_entry registry p hp⟩
  unfold dispatchCommand
  rw [dispatchAux_eq_none registry c 0 h]

/-- Witness for C5 at the unmatched command `frobnicate` against a
registry holding only `show`. -/
theorem claim_C5_witness :
    (∀ p ∈ ([⟨pyChars ("show"), pyChars ("display an ocular test")⟩] : List Parser),
        p.key ≠ pyChars ("frobnicate"))
    ∧ dispatchCommand [⟨pyChars ("show"), pyChars ("display an ocular test")⟩]
        { name := pyChars ("frobnicate"), arguments := [] }
        = .fallback false (helpMessage [⟨pyChars ("show"), pyChars ("display an ocular test")⟩]) := by
  refine ⟨by decide, ?_⟩
  have := claim_C5_fallback_help [⟨pyChars ("show"), pyChars ("display an ocular test")⟩]
    { name := pyChars ("frobnicate"), arguments := [] } (by decide)
  rw [this.1]
  decide

/-- C6: an inbound Command whose name matches a registered Parser invokes
the first such Parser in registration order with exactly the Command's
argument list; later same-key Parsers are skipped and no fallback Response
is produced. -/
theorem claim_C6_first_match_dispatch (registry : List Parser) (c : Command) (i : Nat)
    (hi : (registry[i]?).map Parser.key = some c.name)
    (hfirst : ∀ j, j < i → (registry[j]?).map Parser.key ≠ some c.name) :
    dispatchCommand registry c = .invoked i c.arguments := by
  unfold dispatchCommand
  rw [dispatchAux_eq_first registry c i 0 hi hfirst]
  simp

/-- Witness for C6: a registry with two parsers sharing the key `show`
dispatches to the first of them with the command's arguments. -/
theorem claim_C6_witness :
    ((([⟨pyChars ("show"), pyChars ("d1")⟩, ⟨pyChars ("show"), pyChars ("d2")⟩]
        : List Parser)[0]?).map Parser.key = some (pyChars ("show")))
    ∧ dispatchCommand [⟨pyChars ("show"), pyChars ("d1")⟩, ⟨pyChars ("show"), pyChars ("d2")⟩]
        { name := pyChars ("show"), arguments := [pyChars ("okn")] }
        = .invoked 0 [pyChars ("okn")] :=
  ⟨by decide,
    claim_C6_first_match_dispatch
      [⟨pyChars ("show"), pyChars ("d1")⟩, ⟨pyChars ("show"), pyChars ("d2")⟩]
      { name := pyChars ("show"), arguments := [pyChars ("okn")] } 0 (by decide)
      (fun j hj => absurd hj (Nat.not_lt_zero j))⟩

/-- C9 counterexample: with an empty registry and two pending unmatched
Commands, one `Parse.process` tick consumes both of them (the loop only
`return`s after a successful match), refuting "at most one inbound Command
is processed per tick". -/
theorem claim_C9_counterexample :
    ¬ (([⟨pyChars ("alpha"), []⟩, ⟨pyChars ("beta"), []⟩] : List Command).length
        - (parseTick [] [⟨pyChars ("alpha"), []⟩, ⟨pyChars ("beta"), []⟩]).2.length ≤ 1) := by
  decide

/-- C9 (amended): on each tick Commands are examined oldest-first; every
leading unmatched Command yields one fallback Response and examination
continues, and the first Command matching a registered Parser (at its least
matching registry index) is dispatched with its arguments and ends the
tick, leaving all later Commands queued in FIFO order. -/
theorem claim_C9_amended_tick (registry : List Parser) (pre : List Command) (c : Command)
    (post : List Command) (i : Nat)
    (hpre : ∀ x ∈ pre, ∀ p ∈ registry, p.key ≠ x.name)
    (hi : (registry[i]?).map Parser.key = some c.name)
    (hfirst : ∀ j, j < i → (registry[j]?).map Parser.key ≠ some c.name) :
    parseTick registry (pre ++ c :: post)
      = (pre.map (fun x =>
            .fallback (decide (x.name = pyChars ("help"))) (helpMessage registry))
          ++ [.invoked i c.arguments], post) := by
  induction pre with
  | nil =>
    simp only [List.nil_append, List.map_nil, parseTick]
    rw [dispatchAux_eq_first registry c i 0 hi hfirst]
    simp
  | cons x t ih =>
    simp only [List.cons_append, List.map_cons, parseTick, List.append_eq]
    rw [dispatchAux_eq_none registry x 0 (fun p hp => hpre x (List.mem_cons_self x t) p hp)]
    rw [ih (fun y hy p hp => hpre y (List.mem_cons_of_mem x hy) p hp)]

/-- Witness for the amended C9: one unmatched Command, then `show`, then a
queued later Command; the tick answers the first, dispatches `show`, and
leaves the third queued. -/
theorem claim_C9_witness :
    parseTick [⟨pyChars ("show"), pyChars ("d")⟩]
        [⟨pyChars ("frob"), []⟩, ⟨pyChars ("show"), [pyChars ("okn")]⟩, ⟨pyChars ("later"), []⟩]
      = ([.fallback false (helpMessage [⟨pyChars ("show"), pyChars ("d")⟩]),
          .invoked 0 [pyChars ("okn")]], [⟨pyChars ("later"), []⟩]) := by
  have := claim_C9_amended_tick [⟨pyChars ("show"), pyChars ("d")⟩]
    [⟨pyChars ("frob"), []⟩] ⟨pyChars ("show"), [pyChars ("okn")]⟩ [⟨pyChars ("later"), []⟩] 0
    (by decide) (by decide) (fun j hj => absurd hj (Nat.not_lt_zero j))
  simpa using this

/-! ## User-input lemmas -/

theorem pySplitF_fuel_invariant (f : Nat) :
    ∀ (g : Nat) (s : PyStr), s.length ≤ f → s.length ≤ g → pySplitF f s = pySplitF g s := by
  induction f with
  | zero =>
    intro g s hf _
    cases s with
    | nil => cases g <;> rfl
    | cons c cs => simp at hf
  | succ f1 ih =>
    intro g s hf hg
    cases s with
    | nil => cases g <;> rfl
    | cons c cs =>
      cases g with
      | zero => simp at hg
      | succ g1 =>
        simp only [pySplitF]
        by_cases hc : pyIsSpace c = true
        · rw [if_pos hc, if_pos hc]
          exact ih g1 cs (by simp only [List.length_cons] at hf; omega)
            (by simp only [List.length_cons] at hg; omega)
        · rw [if_neg hc, if_neg hc]
          have hlen := (List.dropWhile_sublist (l := cs) (fun d => !pyIsSpace d)).length_le
          have hf2 : cs.length ≤ f1 := by simp only [List.length_cons] at hf; omega
          have hg2 : cs.length ≤ g1 := by simp only [List.length_cons] at hg; omega
          rw [ih g1 (cs.dropWhile (fun d => !pyIsSpace d)) (by omega) (by omega)]

theorem pySplitF_nil (f : Nat) : pySplitF f [] = [] := by cases f <;> rfl

theorem pySplit_nil : pySplit [] = [] := rfl

theorem pySplit_cons_space (c : Nat) (cs : PyStr) (hc : pyIsSpace c = true) :
    pySplit (c :: cs) = pySplit cs := by
  unfold pySplit
  simp only [List.length_cons, pySplitF]
  rw [if_pos hc]

theorem pySplit_cons_tok (c : Nat) (cs : PyStr) (hc : ¬pyIsSpace c = true) :
    pySplit (c :: cs)
      = (c :: cs.takeWhile (fun d => !pyIsSpace d))
        :: pySplit (cs.dropWhile (fun d => !pyIsSpace d)) := by
  unfold pySplit
  simp only [List.length_cons, pySplitF]
  rw [if_neg hc]
  have hlen := (List.dropWhile_sublist (l := cs) (fun d => !pyIsSpace d)).length_le
  rw [pySplitF_fuel_invariant cs.length (cs.dropWhile (fun d => !pyIsSpace d)).length
    (cs.dropWhile (fun d => !pyIsSpace d)) hlen (le_refl _)]

theorem pySplit_eq_nil_of_all_space (s : PyStr) (h : ∀ c ∈ s, pyIsSpace c = true) :
    pySplit s = [] := by
  induction s with
  | nil => exact pySplit_nil
  | cons c cs ih =>
    rw [pySplit_cons_space c cs (h c (List.mem_cons_self c cs))]
    exact ih (fun d hd => h d (List.mem_cons_of_mem c hd))

theorem all_space_of_pySplit_eq_nil (s : PyStr) (h : pySplit s = []) :
    ∀ c ∈ s, pyIsSpace c = true := by
  induction s with
  | nil => simp
  | cons c cs ih =>
    by_cases hc : pyIsSpace c = true
    · rw [pySplit_cons_space c cs hc] at h
      intro d hd
      rcases List.mem_cons.1 hd with rfl | hd2
      · exact hc
      · exact ih h d hd2
    · rw [pySplit_cons_tok c cs hc] at h
      exact absurd h (List.cons_ne_nil _ _)

theorem pySplit_dropWhile (s : PyStr) :
    pySplit (s.dropWhile pyIsSpace) = pySplit s := by
  induction s with
  | nil => rfl
  | cons c cs ih =>
    by_cases hc : pyIsSpace c = true
    · rw [List.dropWhile_cons_of_pos hc, ih, pySplit_cons_space c cs hc]
    · rw [List.dropWhile_cons_of_neg hc]

theorem pySplit_append_space (u w : PyStr) (hw : ∀ d ∈ w, pyIsSpace d = true) :
    pySplit (u ++ w) = pySplit u := by
  have key : ∀ (f : Nat) (u : PyStr), u.length + w.length ≤ f →
      pySplitF f (u ++ w) = pySplitF f u := by
    intro f
    induction f with
    | zero =>
      intro u hf
      have hu : u = [] := by
        cases u with
        | nil => rfl
        | cons c cs => simp at hf
      have hw2 : w = [] := by
        cases w with
        | nil => rfl
        | cons d ds => subst hu; simp at hf
      subst hu; subst hw2; rfl
    | succ f1 ih =>
      intro u hf
      cases u with
      | nil =>
        rw [List.nil_append]
        have : pySplitF (f1 + 1) w = pySplit w :=
          pySplitF_fuel_invariant (f1 + 1) w.length w (by simp at hf; omega) (le_refl _)
        rw [this, pySplit_eq_nil_of_all_space w hw]
        rfl
      | cons c cs =>
        simp only [List.cons_append, pySplitF, List.append_eq]
        by_cases hc : pyIsSpace c = true
        · simp only [if_pos hc]
          exact ih cs (by simp only [List.length_cons] at hf; omega)
        · simp only [if_neg hc]
          by_cases hfull : (cs.takeWhile (fun d => !pyIsSpace d)).length = cs.length
          · have hcs : cs.takeWhile (fun d => !pyIsSpace d) = cs :=
              (List.takeWhile_prefix (fun d => !pyIsSpace d)).eq_of_length hfull
            have hwtake : w.takeWhile (fun d => !pyIsSpace d) = [] := by
              cases w with
              | nil => rfl
              | cons x xs =>
                rw [List.takeWhile_cons_of_neg]
                simp [hw x (List.mem_cons_self x xs)]
            have hwdrop : w.dropWhile (fun d => !pyIsSpace d) = w := by
              cases w with
              | nil => rfl
              | cons x xs =>
                rw [List.dropWhile_cons_of_neg]
                simp [hw x (List.mem_cons_self x xs)]
            have hdropnil : cs.dropWhile (fun d => !pyIsSpace d) = [] := by
              rw [List.dropWhile_eq_nil_iff]
              intro x hx
              have := List.mem_takeWhile_imp (hcs ▸ hx)
              simpa using this
            rw [List.takeWhile_append, if_pos hfull, List.dropWhile_append, hdropnil]
            simp only [List.isEmpty_nil, if_pos]
            rw [hwdrop, hwtake, List.append_nil, hcs]
            have h1 : pySplitF f1 w = pySplit w :=
              pySplitF_fuel_invariant f1 w.length w
                (by simp only [List.length_cons] at hf; omega) (le_refl _)
            rw [h1, pySplit_eq_nil_of_all_space w hw, pySplitF_nil]
          · have hdropne : cs.dropWhile (fun d => !pyIsSpace d) ≠ [] := by
              intro habs
              apply hfull
              have h2 := List.takeWhile_append_dropWhile (fun d => !pyIsSpace d) cs
              rw [habs, List.append_nil] at h2
              rw [h2]
            rw [List.takeWhile_append, if_neg hfull, List.dropWhile_append]
            rw [if_neg (by simpa [List.isEmpty_iff] using hdropne)]
            have hlen := (List.dropWhile_sublist (l := cs) (fun d => !pyIsSpace d)).length_le
            rw [ih (cs.dropWhile (fun d => !pyIsSpace d))
              (by simp only [List.length_cons] at hf; omega)]
  unfold pySplit
  rw [List.length_append]
  rw [key (u.length + w.length) u (le_refl _)]
  exact pySplitF_fuel_invariant (u.length + w.length) u.length u (by omega) (le_refl _)

theorem pySplit_pyStrip (s : PyStr) : pySplit (pyStrip s) = pySplit s := by
  unfold pyStrip
  have hdecomp : s.dropWhile pyIsSpace
      = ((s.dropWhile pyIsSpace).reverse.dropWhile pyIsSpace).reverse
        ++ ((s.dropWhile pyIsSpace).reverse.takeWhile pyIsSpace).reverse := by
    have h := List.takeWhile_append_dropWhile pyIsSpace (s.dropWhile pyIsSpace).reverse
    calc s.dropWhile pyIsSpace
        = (s.dropWhile pyIsSpace).reverse.reverse := by rw [List.reverse_reverse]
      _ = ((s.dropWhile pyIsSpace).reverse.takeWhile pyIsSpace
            ++ (s.dropWhile pyIsSpace).reverse.dropWhile pyIsSpace).reverse := by rw [h]
      _ = _ := by rw [List.reverse_append]
  have hw : ∀ d ∈ ((s.dropWhile pyIsSpace).reverse.takeWhile pyIsSpace).reverse,
      pyIsSpace d = true := by
    intro d hd
    exact List.mem_takeWhile_imp (List.mem_reverse.1 hd)
  calc pySplit ((s.dropWhile pyIsSpace).reverse.dropWhile pyIsSpace).reverse
      = pySplit (((s.dropWhile pyIsSpace).reverse.dropWhile pyIsSpace).reverse
          ++ ((s.dropWhile pyIsSpace).reverse.takeWhile pyIsSpace).reverse) :=
        (pySplit_append_space _ _ hw).symm
    _ = pySplit (s.dropWhile pyIsSpace) := by rw [← hdecomp]
    _ = pySplit s := pySplit_dropWhile s

theorem pySplit_tokens_wf (s : PyStr) :
    ∀ t ∈ pySplit s, t ≠ [] ∧ ∀ c ∈ t, pyIsSpace c = false := by
  generalize hn : s.length = n
  induction n using Nat.strong_induction_on generalizing s with
  | _ n ih =>
    cases s with
    | nil =>
      rw [pySplit_nil]
      simp
    | cons c cs =>
      by_cases hc : pyIsSpace c = true
      · rw [pySplit_cons_space c cs hc]
        exact ih cs.length (by simp only [List.length_cons] at hn; omega) cs rfl
      · rw [pySplit_cons_tok c cs hc]
        intro t ht
        rcases List.mem_cons.1 ht with rfl | ht2
        · refine ⟨List.cons_ne_nil _ _, ?_⟩
          intro d hd
          rcases List.mem_cons.1 hd with rfl | hd2
          · cases h : pyIsSpace d
            · rfl
            · exact absurd h hc
          · have := List.mem_takeWhile_imp hd2
            simpa using this
        · have hlen := (List.dropWhile_sublist (l := cs) (fun d => !pyIsSpace d)).length_le
          exact ih (cs.dropWhile (fun d => !pyIsSpace d)).length
            (by simp only [List.length_cons] at hn; omega)
            (cs.dropWhile (fun d => !pyIsSpace d)) rfl t ht2

/-- C10: `forward_user_input` / `eval_user_input_as_command` creates no
Command for an empty or whitespace-only input (the token list is empty
exactly when every character is whitespace) and otherwise creates exactly
one Command whose name is the first whitespace-separated token and whose
arguments are the remaining tokens in order; every token is a nonempty
whitespace-free run. -/
theorem claim_C10_forward_user_input (s : PyStr) :
    (eval_user_input_as_command s
      = match pySplit s with
        | [] => none
        | name :: args => some { name := name, arguments := args })
    ∧ (pySplit s = [] ↔ ∀ c ∈ s, pyIsSpace c = true)
    ∧ (∀ t ∈ pySplit s, t ≠ [] ∧ ∀ c ∈ t, pyIsSpace c = false) := by
  refine ⟨?_, ⟨all_space_of_pySplit_eq_nil s, pySplit_eq_nil_of_all_space s⟩,
    pySplit_tokens_wf s⟩
  unfold eval_user_input_as_command
  rw [pySplit_pyStrip]

/-- Witness for C10 at the two-token input `"  show okn  "` and at a
tab-and-space-only input. -/
theorem claim_C10_witness :
    eval_user_input_as_command (pyChars ("  show okn  "))
        = some { name := pyChars ("show"), arguments := [pyChars ("okn")] }
    ∧ eval_user_input_as_command (pyChars (" \t ")) = none := by
  constructor
  · rw [(claim_C10_forward_user_input (pyChars ("  show okn  "))).1]
    decide
  · rw [(claim_C10_forward_user_input (pyChars (" \t "))).1]
    decide

/-! ## Outbound-queue lemmas -/

theorem flushRun_conservation (ks : List Nat) :
    ∀ q : List (List Nat), validCounts q ks = true →
      (flushRun q ks).1 ++ (flushRun q ks).2.flatten = q.flatten := by
  induction ks with
  | nil =>
    intro q _
    simp [flushRun]
  | cons k ks ih =>
    intro q hv
    cases q with
    | nil =>
      simp only [validCounts, headLen, Bool.and_eq_true, decide_eq_true_eq] at hv
      omega
    | cons h t =>
      simp only [validCounts, headLen, Bool.and_eq_true, decide_eq_true_eq] at hv
      obtain ⟨⟨hk0, hkle⟩, hrest⟩ := hv
      have hk0' : ¬k = 0 := by omega
      by_cases hlt : k < h.length
      · have hstep : flush_process (h :: t) k = .ok (h.drop k :: t) := by
          simp only [flush_process]
          rw [if_neg hk0', if_pos hlt]
        rw [hstep] at hrest
        have hrest2 : validCounts (h.drop k :: t) ks = true := hrest
        simp only [flushRun, hstep, flushSent]
        have hcons := ih (h.drop k :: t) hrest2
        rw [List.append_assoc, hcons]
        show List.take k h ++ (List.drop k h ++ t.flatten) = h ++ t.flatten
        rw [← List.append_assoc, List.take_append_drop]
      · have hk : k = h.length := by omega
        have hstep : flush_process (h :: t) k = .ok t := by
          simp only [flush_process]
          rw [if_neg hk0', if_neg hlt]
        rw [hstep] at hrest
        have hrest2 : validCounts t ks = true := hrest
        simp only [flushRun, hstep, flushSent]
        have hcons := ih t hrest2
        rw [List.append_assoc, hcons]
        rw [hk, List.take_length]
        rfl

/-- C7: a partial send of K of the head frame's N bytes (0 < K < N)
replaces the head with the unsent N−K-byte remainder and leaves every
later queued frame untouched; across any valid sequence of writable
ticks the transmitted byte stream followed by the still-queued bytes is
exactly the original queue contents in order, so the stream sent so far is
always a prefix of the queued frames' concatenation — every byte of the
head frame is transmitted, in order, before any byte of a later frame. -/
theorem claim_C7_partial_write (toSend : List Nat) (others : List (List Nat)) (k : Nat)
    (q : List (List Nat)) (ks : List Nat)
    (hk0 : 0 < k) (hkN : k < toSend.length) (hv : validCounts q ks = true) :
    flush_process (toSend :: others) k = .ok (toSend.drop k :: others)
    ∧ (flushRun q ks).1 ++ (flushRun q ks).2.flatten = q.flatten
    ∧ (flushRun q ks).1 <+: q.flatten := by
  refine ⟨?_, flushRun_conservation ks q hv, ?_⟩
  · simp only [flush_process]
    rw [if_neg (by omega), if_pos hkN]
  · exact ⟨(flushRun q ks).2.flatten, flushRun_conservation ks q hv⟩

/-- Witness for C7 on a three-byte head frame accepted two bytes at a
time, and a two-frame queue drained over three ticks. -/
theorem claim_C7_witness :
    flush_process [[10, 20, 30], [40]] 2 = .ok ([[30], [40]])
    ∧ (flushRun [[1, 2], [3]] [1, 1, 1]).1 ++ (flushRun [[1, 2], [3]] [1, 1, 1]).2.flatten
        = ([[1, 2], [3]] : List (List Nat)).flatten := by
  have h := claim_C7_partial_write [10, 20, 30] [[40]] 2 [[1, 2], [3]] [1, 1, 1]
    (by decide) (by decide) (by decide)
  exact ⟨h.1, h.2.1⟩

/-! ## Lifecycle lemmas -/

theorem listen_step_preserves (w : ListenWorld) (e : ListenEvent)
    (h : ¬(w.connection = true ∧ w.listener = true)) :
    ¬((listen_step w e).connection = true ∧ (listen_step w e).listener = true) := by
  cases e with
  | tick r =>
    simp only [listen_step, listen_process]
    by_cases hc : w.connection = true
    · rw [if_pos hc]
      exact h
    · rw [if_neg hc]
      by_cases hr : r = true
      · rw [if_pos hr]
        simp
      · rw [if_neg hr]
        simp only []
        intro habs
        exact hc habs.1
  | disconnect =>
    simp only [listen_step]
    intro habs
    simp at habs

theorem connect_step_preserves (w : ConnectWorld) (e : ConnectEvent)
    (h : ¬(w.connection = true ∧ w.pending = true)) :
    ¬((connect_step w e).connection = true ∧ (connect_step w e).pending = true) := by
  cases e with
  | tick r =>
    simp only [connect_step, connect_process]
    by_cases hc : w.connection = true
    · rw [if_pos hc]
      exact h
    · rw [if_neg hc]
      by_cases hr : r = true
      · rw [if_pos hr]
        simp
      · rw [if_neg hr]
        intro habs
        exact hc habs.1
  | disconnect =>
    simp only [connect_step]
    intro habs
    simp at habs

theorem listen_run_preserves (evs : List ListenEvent) :
    ∀ w : ListenWorld, ¬(w.connection = true ∧ w.listener = true) →
      ¬((listen_run w evs).connection = true ∧ (listen_run w evs).listener = true) := by
  induction evs with
  | nil => exact fun w h => h
  | cons e es ih =>
    intro w h
    exact ih (listen_step w e) (listen_step_preserves w e h)

theorem connect_run_preserves (evs : List ConnectEvent) :
    ∀ w : ConnectWorld, ¬(w.connection = true ∧ w.pending = true) →
      ¬((connect_run w evs).connection = true ∧ (connect_run w evs).pending = true) := by
  induction evs with
  | nil => exact fun w h => h
  | cons e es ih =>
    intro w h
    exact ih (connect_step w e) (connect_step_preserves w e h)

/-- C8: from the empty initial world, every interleaving of lifecycle
ticks and disconnects keeps the singleton invariants — on the listening
role a Listener and a Connection never coexist (so at most one of the two
exists at any tick boundary), and on the connecting role a
PendingConnection and a Connection never coexist. -/
theorem claim_C8_lifecycle_singletons (evsL : List ListenEvent) (evsC : List ConnectEvent) :
    ¬((listen_run { connection := false, listener := false } evsL).connection = true
        ∧ (listen_run { connection := false, listener := false } evsL).listener = true)
    ∧ ¬((connect_run { connection := false, pending := false } evsC).connection = true
        ∧ (connect_run { connection := false, pending := false } evsC).pending = true) :=
  ⟨listen_run_preserves evsL _ (by simp),
    connect_run_preserves evsC _ (by simp)⟩

/-! ## cli.py reset-on-disconnect -/

/-- C4: with a live Connection, a zero-length read raises
`ConnectionError` inside the guarded tick; `CurrentConnection.__exit__`
catches it (so the process does not crash), the Connection is destroyed
and a fresh Listener exists for the following tick. -/
theorem claim_C4_zero_read_resets (w : CliWorld) (buf : List Nat)
    (hc : w.connection = true) :
    parse_tick_read w .zeroLength buf
      = .ok (none, buf, { connection := false, listener := true }) := by
  simp only [parse_tick_read, socketReader_read, reset_connection]
  rw [if_pos hc]

/-- Witness for C4 from a world holding only a Connection. -/
theorem claim_C4_witness :
    ({ connection := true, listener := false } : CliWorld).connection = true
    ∧ parse_tick_read { connection := true, listener := false } .zeroLength []
        = .ok (none, [], { connection := false, listener := true }) :=
  ⟨rfl, claim_C4_zero_read_resets { connection := true, listener := false } [] rfl⟩

/-! ## UTF-8 round trip -/

theorem utf8EncodeCp_ne_nil (n : Nat) : utf8EncodeCp n ≠ [] := by
  unfold utf8EncodeCp
  split_ifs <;> simp

theorem utf8DecodeCp_encode (n : Nat) (hn : n < 0x110000) (rest : List Nat) :
    utf8DecodeCp (utf8EncodeCp n ++ rest) = some (n, rest) := by
  unfold utf8EncodeCp
  by_cases h1 : n < 0x80
  · rw [if_pos h1]
    simp only [List.cons_append, List.nil_append, utf8DecodeCp]
    rw [if_pos h1]
  · rw [if_neg h1]
    by_cases h2 : n < 0x800
    · rw [if_pos h2]
      simp only [List.cons_append, List.nil_append, utf8DecodeCp]
      rw [if_neg (by omega), if_neg (by omega), if_pos (by omega), if_pos (by omega)]
      congr 1
      congr 1
      omega
    · rw [if_neg h2]
      by_cases h3 : n < 0x10000
      · rw [if_pos h3]
        simp only [List.cons_append, List.nil_append, utf8DecodeCp]
        rw [if_neg (by omega), if_neg (by omega), if_neg (by omega), if_pos (by omega)]
        rw [if_pos (by constructor <;> constructor <;> omega)]
        rw [if_neg (by omega)]
        congr 1
        congr 1
        omega
      · rw [if_neg h3]
        simp only [List.cons_append, List.nil_append, utf8DecodeCp]
        rw [if_neg (by omega), if_neg (by omega), if_neg (by omega), if_neg (by omega)]
        rw [if_pos (by omega)]
        rw [if_pos (by refine ⟨⟨?_, ?_⟩, ⟨?_, ?_⟩, ?_, ?_⟩ <;> omega)]
        rw [if_neg (by omega)]
        congr 1
        congr 1
        omega

theorem utf8Str_length_ge (s : PyStr) : s.length ≤ (utf8Str s).length := by
  induction s with
  | nil => simp [utf8Str]
  | cons c cs ih =>
    simp only [utf8Str, List.map_cons, List.flatten_cons, List.length_append, List.length_cons]
    have h1 : 1 ≤ (utf8EncodeCp c).length := by
      cases h : utf8EncodeCp c with
      | nil => exact absurd h (utf8EncodeCp_ne_nil c)
      | cons x xs => simp
    have h2 : cs.length ≤ (utf8Str cs).length := ih
    simp only [utf8Str] at h2
    omega

theorem utf8DecodeAll_encode (s : PyStr) :
    ∀ f : Nat, (∀ c ∈ s, c < 0x110000) → s.length ≤ f →
      utf8DecodeAll f (utf8Str s) = some s := by
  induction s with
  | nil =>
    intro f _ _
    cases f <;> rfl
  | cons c cs ih =>
    intro f hv hf
    have hc : c < 0x110000 := hv c (List.mem_cons_self c cs)
    have hne : utf8Str (c :: cs) ≠ [] := by
      simp only [utf8Str, List.map_cons, List.flatten_cons]
      cases h : utf8EncodeCp c with
      | nil => exact absurd h (utf8EncodeCp_ne_nil c)
      | cons x xs => simp
    obtain ⟨f1, rfl⟩ : ∃ f1, f = f1 + 1 := by
      cases f with
      | zero => simp only [List.length_cons] at hf; omega
      | succ f1 => exact ⟨f1, rfl⟩
    have hshape : utf8Str (c :: cs) = utf8EncodeCp c ++ utf8Str cs := by
      simp [utf8Str]
    cases hrep : utf8Str (c :: cs) with
    | nil => exact absurd hrep hne
    | cons b bs =>
      have : utf8DecodeAll (f1 + 1) (b :: bs)
          = match utf8DecodeCp (b :: bs) with
            | some (n, rest) =>
              match utf8DecodeAll f1 rest with
              | some s => some (n :: s)
              | none => none
            | none => none := rfl
      rw [this, ← hrep, hshape, utf8DecodeCp_encode c hc (utf8Str cs)]
      show (match utf8DecodeAll f1 (utf8Str cs) with
        | some s => some (c :: s)
        | none => none) = some (c :: cs)
      rw [ih f1 (fun d hd => hv d (List.mem_cons_of_mem c hd))
        (by simp only [List.length_cons] at hf; omega)]

theorem decodeStrList_encode (args : List PyStr)
    (hv : ∀ a ∈ args, ∀ c ∈ a, c < 0x110000) :
    decodeStrList (args.map (fun a => .jstr (utf8Str a))) = some args := by
  induction args with
  | nil => rfl
  | cons a t ih =>
    simp only [List.map_cons, decodeStrList]
    rw [utf8DecodeAll_encode a (utf8Str a).length
      (fun c hc => hv a (List.mem_cons_self a t) c hc) (utf8Str_length_ge a)]
    rw [ih (fun b hb c hc => hv b (List.mem_cons_of_mem a hb) c hc)]

/-! ## JSON string escaping round trip -/

theorem escapeBytes_cons (b : Nat) (t : List Nat) :
    escapeBytes (b :: t) = jsonEscapeByte b ++ escapeBytes t := by
  simp [escapeBytes]

theorem hexVal_hexDigitByte (d : Nat) (hd : d < 16) : hexVal (hexDigitByte d) = some d := by
  unfold hexVal hexDigitByte
  by_cases h : d < 10
  · rw [if_pos h, if_pos (by omega)]
    congr 1
    omega
  · rw [if_neg h, if_neg (by omega), if_pos (by omega)]
    congr 1
    omega

theorem parseStringBody_esc_step (f1 : Nat) (x : Nat) (xs out r2 : List Nat)
    (hesc : parseEscape (x :: xs) = some (out, r2)) :
    parseStringBody (f1 + 1) (0x5C :: x :: xs)
      = match parseStringBody f1 r2 with
        | some (content, rest) => some (out ++ content, rest)
        | none => none := by
  simp only [parseStringBody]
  rw [if_neg (by decide), if_pos (by trivial), hesc]

theorem parseStringBody_escape (content : List Nat) :
    ∀ (f : Nat) (rest : List Nat), content.length + 1 ≤ f →
      parseStringBody f (escapeBytes content ++ 0x22 :: rest) = some (content, rest) := by
  induction content with
  | nil =>
    intro f rest hf
    obtain ⟨f1, rfl⟩ : ∃ f1, f = f1 + 1 := ⟨f - 1, by omega⟩
    show parseStringBody (f1 + 1) ([] ++ 0x22 :: rest) = some ([], rest)
    rw [List.nil_append]
    simp [parseStringBody]
  | cons b t ih =>
    intro f rest hf
    obtain ⟨f1, rfl⟩ : ∃ f1, f = f1 + 1 := ⟨f - 1, by omega⟩
    have hfr : t.length + 1 ≤ f1 := by simp only [List.length_cons] at hf; omega
    have htail := ih f1 rest hfr
    rw [escapeBytes_cons, List.append_assoc]
    by_cases hb22 : b = 0x22
    · subst hb22
      rw [show jsonEscapeByte 0x22 = [0x5C, 0x22] from rfl]
      simp only [List.cons_append, List.nil_append]
      rw [parseStringBody_esc_step f1 0x22 _ [0x22] _ rfl, htail]
      rfl
    · by_cases hb5C : b = 0x5C
      · subst hb5C
        rw [show jsonEscapeByte 0x5C = [0x5C, 0x5C] from rfl]
        simp only [List.cons_append, List.nil_append]
        rw [parseStringBody_esc_step f1 0x5C _ [0x5C] _ rfl, htail]
        rfl
      · by_cases hb08 : b = 0x08
        · subst hb08
          rw [show jsonEscapeByte 0x08 = [0x5C, 0x62] from rfl]
          simp only [List.cons_append, List.nil_append]
          rw [parseStringBody_esc_step f1 0x62 _ [0x08] _ rfl, htail]
          rfl
        · by_cases hb09 : b = 0x09
          · subst hb09
            rw [show jsonEscapeByte 0x09 = [0x5C, 0x74] from rfl]
            simp only [List.cons_append, List.nil_append]
            rw [parseStringBody_esc_step f1 0x74 _ [0x09] _ rfl, htail]
            rfl
          · by_cases hb0A : b = 0x0A
            · subst hb0A
              rw [show jsonEscapeByte 0x0A = [0x5C, 0x6E] from rfl]
              simp only [List.cons_append, List.nil_append]
              rw [parseStringBody_esc_step f1 0x6E _ [0x0A] _ rfl, htail]
              rfl
            · by_cases hb0C : b = 0x0C
              · subst hb0C
                rw [show jsonEscapeByte 0x0C = [0x5C, 0x66] from rfl]
                simp only [List.cons_append, List.nil_append]
                rw [parseStringBody_esc_step f1 0x66 _ [0x0C] _ rfl, htail]
                rfl
              · by_cases hb0D : b = 0x0D
                · subst hb0D
                  rw [show jsonEscapeByte 0x0D = [0x5C, 0x72] from rfl]
                  simp only [List.cons_append, List.nil_append]
                  rw [parseStringBody_esc_step f1 0x72 _ [0x0D] _ rfl, htail]
                  rfl
                · by_cases hlt : b < 0x20
                  · have hch : jsonEscapeByte b
                        = [0x5C, 0x75, 0x30, 0x30, hexDigitByte (b / 16), hexDigitByte (b % 16)] := by
                      unfold jsonEscapeByte
                      rw [if_neg hb22, if_neg hb5C, if_neg hb08, if_neg hb09, if_neg hb0A,
                        if_neg hb0C, if_neg hb0D, if_pos hlt]
                    rw [hch]
                    simp only [List.cons_append, List.nil_append]
                    have hesc : parseEscape (0x75 :: 0x30 :: 0x30 :: hexDigitByte (b / 16)
                        :: hexDigitByte (b % 16) :: (escapeBytes t ++ 0x22 :: rest))
                        = some ([b], escapeBytes t ++ 0x22 :: rest) := by
                      show (match hexVal 0x30, hexVal 0x30, hexVal (hexDigitByte (b / 16)),
                          hexVal (hexDigitByte (b % 16)) with
                        | some a, some b2, some c, some d =>
                          if 0xD800 ≤ ((a * 16 + b2) * 16 + c) * 16 + d
                              ∧ ((a * 16 + b2) * 16 + c) * 16 + d < 0xE000
                          then none
                          else some (utf8EncodeCp (((a * 16 + b2) * 16 + c) * 16 + d),
                            escapeBytes t ++ 0x22 :: rest)
                        | _, _, _, _ => none) = some ([b], escapeBytes t ++ 0x22 :: rest)
                      rw [show hexVal 0x30 = some 0 from rfl,
                        hexVal_hexDigitByte (b / 16) (by omega),
                        hexVal_hexDigitByte (b % 16) (by omega)]
                      show (if 0xD800 ≤ ((0 * 16 + 0) * 16 + b / 16) * 16 + b % 16
                            ∧ ((0 * 16 + 0) * 16 + b / 16) * 16 + b % 16 < 0xE000
                          then none
                          else some (utf8EncodeCp (((0 * 16 + 0) * 16 + b / 16) * 16 + b % 16),
                            escapeBytes t ++ 0x22 :: rest))
                        = some ([b], escapeBytes t ++ 0x22 :: rest)
                      rw [show ((0 * 16 + 0) * 16 + b / 16) * 16 + b % 16 = b from by omega]
                      rw [if_neg (by omega)]
                      rw [show utf8EncodeCp b = [b] from by
                        unfold utf8EncodeCp; rw [if_pos (by omega)]]
                    rw [parseStringBody_esc_step f1 0x75 _ [b] _ hesc, htail]
                    rfl
                  · have hch : jsonEscapeByte b = [b] := by
                      unfold jsonEscapeByte
                      rw [if_neg hb22, if_neg hb5C, if_neg hb08, if_neg hb09, if_neg hb0A,
                        if_neg hb0C, if_neg hb0D, if_neg hlt]
                    rw [hch]
                    simp only [List.cons_append, List.nil_append]
                    simp only [parseStringBody]
                    rw [if_neg hb22, if_neg hb5C, htail]

/-! ## Value-level print-parse lemmas -/

theorem skipWs_cons_not_ws (b : Nat) (bs : List Nat) (h : isWsByte b = false) :
    skipWs (b :: bs) = b :: bs := by
  simp [skipWs, h]

theorem parseValue_jsonStrB (content : List Nat) (rest : List Nat) (f : Nat)
    (hf : content.length + 2 ≤ f) :
    parseValue f (jsonStrB content ++ rest) = some (.jstr content, rest) := by
  obtain ⟨f1, rfl⟩ : ∃ f1, f = f1 + 1 := ⟨f - 1, by omega⟩
  show parseValue (f1 + 1) ((0x22 :: escapeBytes content ++ [0x22]) ++ rest)
    = some (.jstr content, rest)
  have hshape : (0x22 :: escapeBytes content ++ [0x22]) ++ rest
      = 0x22 :: (escapeBytes content ++ 0x22 :: rest) := by
    simp [List.append_assoc]
  rw [hshape]
  rw [show parseValue (f1 + 1) (0x22 :: (escapeBytes content ++ 0x22 :: rest))
      = (match parseStringBody f1 (escapeBytes content ++ 0x22 :: rest) with
        | some (c, r) => some (.jstr c, r)
        | none => none) from rfl]
  rw [parseStringBody_escape content f1 rest (by omega)]

theorem parseValue_true (rest : List Nat) (f : Nat) (hf : 1 ≤ f) :
    parseValue f (pyChars ("true") ++ rest) = some (.jbool true, rest) := by
  obtain ⟨f1, rfl⟩ : ∃ f1, f = f1 + 1 := ⟨f - 1, by omega⟩
  rfl

theorem parseValue_false (rest : List Nat) (f : Nat) (hf : 1 ≤ f) :
    parseValue f (pyChars ("false") ++ rest) = some (.jbool false, rest) := by
  obtain ⟨f1, rfl⟩ : ∃ f1, f = f1 + 1 := ⟨f - 1, by omega⟩
  rfl

/-- Fuel budget for parsing a printed array of strings with the given
(pre-escape) contents. -/
def strListFuel : List (List Nat) → Nat
  | [] => 2
  | c :: t => c.length + 4 + strListFuel t

theorem parseElems1_strings (cs : List (List Nat)) :
    cs ≠ [] → ∀ (f : Nat) (rest : List Nat), strListFuel cs ≤ f →
      parseElems1 f (sepByComma (cs.map jsonStrB) ++ 0x5D :: rest)
        = some (cs.map JVal.jstr, rest) := by
  induction cs with
  | nil => intro hne; exact absurd rfl hne
  | cons c t ih =>
    intro _ f rest hf
    have hsf : strListFuel (c :: t) = c.length + 4 + strListFuel t := rfl
    rw [hsf] at hf
    have hsf0 : 2 ≤ strListFuel t := by
      cases t with
      | nil => exact le_refl 2
      | cons x xs =>
        rw [show strListFuel (x :: xs) = x.length + 4 + strListFuel xs from rfl]
        omega
    obtain ⟨f1, rfl⟩ : ∃ f1, f = f1 + 1 := ⟨f - 1, by omega⟩
    cases t with
    | nil =>
      show parseElems1 (f1 + 1) (sepByComma [jsonStrB c] ++ 0x5D :: rest)
        = some ([.jstr c], rest)
      rw [show sepByComma [jsonStrB c] = jsonStrB c from rfl]
      rw [show parseElems1 (f1 + 1) (jsonStrB c ++ 0x5D :: rest)
          = (match parseValue f1 (jsonStrB c ++ 0x5D :: rest) with
            | some (v, r) =>
              (match skipWs r with
                | [] => none
                | d :: r2 =>
                  if d = 0x5D then some ([v], r2)
                  else if d = 0x2C then
                    match parseElems1 f1 r2 with
                    | some (vs, rest) => some (v :: vs, rest)
                    | none => none
                  else none)
            | none => none) from rfl]
      rw [parseValue_jsonStrB c (0x5D :: rest) f1 (by omega)]
      rfl
    | cons c2 t2 =>
      have hsep : sepByComma ((c :: c2 :: t2).map jsonStrB)
          = jsonStrB c ++ 0x2C :: sepByComma ((c2 :: t2).map jsonStrB) := rfl
      rw [hsep]
      have hshape : (jsonStrB c ++ 0x2C :: sepByComma ((c2 :: t2).map jsonStrB)) ++ 0x5D :: rest
          = jsonStrB c ++ (0x2C :: (sepByComma ((c2 :: t2).map jsonStrB) ++ 0x5D :: rest)) := by
        simp [List.append_assoc]
      rw [hshape]
      rw [show parseElems1 (f1 + 1)
          (jsonStrB c ++ (0x2C :: (sepByComma ((c2 :: t2).map jsonStrB) ++ 0x5D :: rest)))
          = (match parseValue f1
              (jsonStrB c ++ (0x2C :: (sepByComma ((c2 :: t2).map jsonStrB) ++ 0x5D :: rest))) with
            | some (v, r) =>
              (match skipWs r with
                | [] => none
                | d :: r2 =>
                  if d = 0x5D then some ([v], r2)
                  else if d = 0x2C then
                    match parseElems1 f1 r2 with
                    | some (vs, rest) => some (v :: vs, rest)
                    | none => none
                  else none)
            | none => none) from rfl]
      rw [parseValue_jsonStrB c _ f1 (by omega)]
      show (match parseElems1 f1 (sepByComma ((c2 :: t2).map jsonStrB) ++ 0x5D :: rest) with
        | some (vs, rest) => some (.jstr c :: vs, rest)
        | none => none) = some ((c :: c2 :: t2).map JVal.jstr, rest)
      rw [ih (List.cons_ne_nil c2 t2) f1 rest (by omega)]
      rfl

theorem parseValue_strArray (cs : List (List Nat)) (rest : List Nat) (f : Nat)
    (hf : strListFuel cs + 2 ≤ f) :
    parseValue f (0x5B :: (sepByComma (cs.map jsonStrB) ++ 0x5D :: rest))
      = some (.jarr (cs.map JVal.jstr), rest) := by
  obtain ⟨f1, rfl⟩ : ∃ f1, f = f1 + 1 := ⟨f - 1, by omega⟩
  rw [show parseValue (f1 + 1) (0x5B :: (sepByComma (cs.map jsonStrB) ++ 0x5D :: rest))
      = (match parseElems f1 (sepByComma (cs.map jsonStrB) ++ 0x5D :: rest) with
        | some (es, r) => some (.jarr es, r)
        | none => none) from rfl]
  have hsf0 : 2 ≤ strListFuel cs := by
    cases cs with
    | nil => exact le_refl 2
    | cons x xs =>
      rw [show strListFuel (x :: xs) = x.length + 4 + strListFuel xs from rfl]
      omega
  obtain ⟨f2, rfl⟩ : ∃ f2, f1 = f2 + 1 := ⟨f1 - 1, by omega⟩
  cases cs with
  | nil =>
    rw [show sepByComma (([] : List (List Nat)).map jsonStrB) = [] from rfl, List.nil_append]
    rfl
  | cons c t =>
    obtain ⟨tail, htail⟩ : ∃ tail,
        sepByComma ((c :: t).map jsonStrB) ++ 0x5D :: rest = 0x22 :: tail := by
      cases t with
      | nil => exact ⟨escapeBytes c ++ [0x22] ++ 0x5D :: rest, by
          simp [sepByComma, jsonStrB, List.append_assoc]⟩
      | cons c2 t2 => exact ⟨escapeBytes c ++ [0x22]
            ++ 0x2C :: sepByComma ((c2 :: t2).map jsonStrB) ++ 0x5D :: rest, by
          simp [sepByComma, jsonStrB, List.append_assoc]⟩
    rw [htail]
    rw [show parseElems (f2 + 1) (0x22 :: tail) = parseElems1 f2 (0x22 :: tail) from rfl]
    rw [← htail]
    rw [parseElems1_strings (c :: t) (List.cons_ne_nil c t) f2 rest (by omega)]

/-- Printed member list of a JSON object (keys given as pre-escape
content, values as already-printed byte sequences), including the closing
brace. -/
def membersBytes : List (List Nat × List Nat) → List Nat
  | [] => [0x7D]
  | (k, vb) :: ms =>
    0x22 :: (escapeBytes k ++ 0x22 :: 0x3A
      :: (vb ++ (match ms with
          | [] => ([0x7D] : List Nat)
          | _ :: _ => 0x2C :: membersBytes ms)))

/-- Key-side fuel budget of a printed member list. -/
def keysFuel : List (List Nat × List Nat × JVal) → Nat
  | [] => 1
  | t :: ts => t.1.length + 3 + keysFuel ts

/-- Fuel budget for a printed member list whose values all parse within
budget `B` (the member loop only ever holds one value parse in flight, so
`B` is charged once). -/
def memFuel (B : Nat) (ts : List (List Nat × List Nat × JVal)) : Nat := B + keysFuel ts

theorem parseMembers1_members (B : Nat) (ts : List (List Nat × List Nat × JVal)) :
    ts ≠ [] →
    (∀ t ∈ ts, ∀ (g : Nat) (r2 : List Nat), B ≤ g →
      parseValue g (t.2.1 ++ r2) = some (t.2.2, r2)) →
    ∀ (f : Nat) (rest : List Nat), memFuel B ts ≤ f →
      parseMembers1 f (membersBytes (ts.map (fun t => (t.1, t.2.1))) ++ rest)
        = some (ts.map (fun t => (t.1, t.2.2)), rest) := by
  induction ts with
  | nil => intro hne; exact absurd rfl hne
  | cons t ts ih =>
    intro _ hvals f rest hf
    obtain ⟨k, vb, v⟩ := t
    have hmf : memFuel B ((k, vb, v) :: ts) = B + (k.length + 3 + keysFuel ts) := rfl
    rw [hmf] at hf
    have hmt : memFuel B ts = B + keysFuel ts := rfl
    have hmf0 : 1 ≤ keysFuel ts := by
      cases ts with
      | nil => exact le_refl 1
      | cons x xs =>
        rw [show keysFuel (x :: xs) = x.1.length + 3 + keysFuel xs from rfl]
        omega
    obtain ⟨f1, rfl⟩ : ∃ f1, f = f1 + 1 := ⟨f - 1, by omega⟩
    have hv := hvals (k, vb, v) (List.mem_cons_self _ _)
    cases ts with
    | nil =>
      have hshape : membersBytes ([(k, vb, v)].map (fun t => (t.1, t.2.1))) ++ rest
          = 0x22 :: (escapeBytes k ++ 0x22 :: (0x3A :: (vb ++ 0x7D :: rest))) := by
        show (0x22 :: (escapeBytes k ++ 0x22 :: 0x3A :: (vb ++ [0x7D]))) ++ rest
          = 0x22 :: (escapeBytes k ++ 0x22 :: (0x3A :: (vb ++ 0x7D :: rest)))
        simp [List.append_assoc]
      rw [hshape]
      rw [show parseMembers1 (f1 + 1)
          (0x22 :: (escapeBytes k ++ 0x22 :: (0x3A :: (vb ++ 0x7D :: rest))))
          = (match parseStringBody f1 (escapeBytes k ++ 0x22 :: (0x3A :: (vb ++ 0x7D :: rest))) with
            | some (key, r2) =>
              (match skipWs r2 with
                | [] => none
                | c :: r3 =>
                  if c = 0x3A then
                    match parseValue f1 r3 with
                    | some (v, r4) =>
                      (match skipWs r4 with
                        | [] => none
                        | d :: r5 =>
                          if d = 0x7D then some ([(key, v)], r5)
                          else if d = 0x2C then
                            match parseMembers1 f1 r5 with
                            | some (ms, rest) => some ((key, v) :: ms, rest)
                            | none => none
                          else none)
                    | none => none
                  else none)
            | none => none) from rfl]
      rw [parseStringBody_escape k f1 (0x3A :: (vb ++ 0x7D :: rest)) (by omega)]
      show (match parseValue f1 (vb ++ 0x7D :: rest) with
        | some (v, r4) =>
          (match skipWs r4 with
            | [] => none
            | d :: r5 =>
              if d = 0x7D then some ([(k, v)], r5)
              else if d = 0x2C then
                match parseMembers1 f1 r5 with
                | some (ms, rest) => some ((k, v) :: ms, rest)
                | none => none
              else none)
        | none => none) = some ([(k, v)], rest)
      rw [hv f1 (0x7D :: rest) (by omega)]
      rfl
    | cons t2 ts2 =>
      have hshape : membersBytes (((k, vb, v) :: t2 :: ts2).map (fun t => (t.1, t.2.1))) ++ rest
          = 0x22 :: (escapeBytes k ++ 0x22 :: (0x3A :: (vb ++ 0x2C
              :: (membersBytes ((t2 :: ts2).map (fun t => (t.1, t.2.1))) ++ rest)))) := by
        show (0x22 :: (escapeBytes k ++ 0x22 :: 0x3A
            :: (vb ++ 0x2C :: membersBytes ((t2 :: ts2).map (fun t => (t.1, t.2.1)))))) ++ rest
          = 0x22 :: (escapeBytes k ++ 0x22 :: (0x3A :: (vb ++ 0x2C
              :: (membersBytes ((t2 :: ts2).map (fun t => (t.1, t.2.1))) ++ rest))))
        simp [List.append_assoc]
      rw [hshape]
      rw [show parseMembers1 (f1 + 1)
          (0x22 :: (escapeBytes k ++ 0x22 :: (0x3A :: (vb ++ 0x2C
            :: (membersBytes ((t2 :: ts2).map (fun t => (t.1, t.2.1))) ++ rest)))))
          = (match parseStringBody f1 (escapeBytes k ++ 0x22 :: (0x3A :: (vb ++ 0x2C
              :: (membersBytes ((t2 :: ts2).map (fun t => (t.1, t.2.1))) ++ rest)))) with
            | some (key, r2) =>
              (match skipWs r2 with
                | [] => none
                | c :: r3 =>
                  if c = 0x3A then
                    match parseValue f1 r3 with
                    | some (v, r4) =>
                      (match skipWs r4 with
                        | [] => none
                        | d :: r5 =>
                          if d = 0x7D then some ([(key, v)], r5)
                          else if d = 0x2C then
                            match parseMembers1 f1 r5 with
                            | some (ms, rest) => some ((key, v) :: ms, rest)
                            | none => none
                          else none)
                    | none => none
                  else none)
            | none => none) from rfl]
      rw [parseStringBody_escape k f1 _ (by omega)]
      show (match parseValue f1 (vb ++ 0x2C
          :: (membersBytes ((t2 :: ts2).map (fun t => (t.1, t.2.1))) ++ rest)) with
        | some (v, r4) =>
          (match skipWs r4 with
            | [] => none
            | d :: r5 =>
              if d = 0x7D then some ([(k, v)], r5)
              else if d = 0x2C then
                match parseMembers1 f1 r5 with
                | some (ms, rest) => some ((k, v) :: ms, rest)
                | none => none
              else none)
        | none => none) = some (((k, vb, v) :: t2 :: ts2).map (fun t => (t.1, t.2.2)), rest)
      rw [hv f1 _ (by omega)]
      show (match parseMembers1 f1
          (membersBytes ((t2 :: ts2).map (fun t => (t.1, t.2.1))) ++ rest) with
        | some (ms, rest) => some ((k, v) :: ms, rest)
        | none => none) = some (((k, vb, v) :: t2 :: ts2).map (fun t => (t.1, t.2.2)), rest)
      rw [ih (List.cons_ne_nil t2 ts2)
        (fun x hx => hvals x (List.mem_cons_of_mem _ hx)) f1 rest (by omega)]
      rfl

theorem parseValue_object (B : Nat) (ts : List (List Nat × List Nat × JVal)) (hne : ts ≠ [])
    (hvals : ∀ t ∈ ts, ∀ (g : Nat) (r2 : List Nat), B ≤ g →
      parseValue g (t.2.1 ++ r2) = some (t.2.2, r2))
    (f : Nat) (rest : List Nat) (hf : memFuel B ts + 2 ≤ f) :
    parseValue f (0x7B :: (membersBytes (ts.map (fun t => (t.1, t.2.1))) ++ rest))
      = some (.jobj (ts.map (fun t => (t.1, t.2.2))), rest) := by
  obtain ⟨f1, rfl⟩ : ∃ f1, f = f1 + 1 := ⟨f - 1, by omega⟩
  rw [show parseValue (f1 + 1) (0x7B :: (membersBytes (ts.map (fun t => (t.1, t.2.1))) ++ rest))
      = (match parseMembers f1 (membersBytes (ts.map (fun t => (t.1, t.2.1))) ++ rest) with
        | some (fields, r) => some (.jobj fields, r)
        | none => none) from rfl]
  have hmf0 : 1 ≤ memFuel B ts := by
    have h1 : memFuel B ts = B + keysFuel ts := rfl
    have h2 : 1 ≤ keysFuel ts := by
      cases ts with
      | nil => exact le_refl 1
      | cons x xs =>
        rw [show keysFuel (x :: xs) = x.1.length + 3 + keysFuel xs from rfl]
        omega
    omega
  obtain ⟨f2, rfl⟩ : ∃ f2, f1 = f2 + 1 := ⟨f1 - 1, by omega⟩
  obtain ⟨t, ts2, rfl⟩ : ∃ t ts2, ts = t :: ts2 := by
    cases ts with
    | nil => exact absurd rfl hne
    | cons t ts2 => exact ⟨t, ts2, rfl⟩
  obtain ⟨tail, htail⟩ : ∃ tail,
      membersBytes (((t :: ts2).map (fun x => (x.1, x.2.1)))) ++ rest = 0x22 :: tail := by
    obtain ⟨k, vb, v⟩ := t
    cases ts2 with
    | nil => exact ⟨_, by
        show (0x22 :: (escapeBytes k ++ 0x22 :: 0x3A :: (vb ++ [0x7D]))) ++ rest = _
        rw [List.cons_append]⟩
    | cons t2 ts3 => exact ⟨_, by
        show (0x22 :: (escapeBytes k ++ 0x22 :: 0x3A :: (vb ++ 0x2C
            :: membersBytes ((t2 :: ts3).map (fun x => (x.1, x.2.1)))))) ++ rest = _
        rw [List.cons_append]⟩
  rw [htail]
  rw [show parseMembers (f2 + 1) (0x22 :: tail) = parseMembers1 f2 (0x22 :: tail) from rfl]
  rw [← htail]
  rw [parseMembers1_members B (t :: ts2) (List.cons_ne_nil t ts2) hvals f2 rest (by omega)]

/-! ## Payload-level lemmas -/

theorem commandPayload_shape (name : PyStr) (args : List PyStr) :
    commandPayload name args
      = 0x7B :: membersBytes
          [(pyChars ("type"), jsonStringBytes (pyChars ("Command"))),
           (pyChars ("name"), jsonStringBytes name),
           (pyChars ("arguments"), 0x5B :: (sepByComma (args.map jsonStringBytes) ++ [0x5D]))] := by
  have h1 : jsonStringBytes (pyChars ("type")) = [0x22, 0x74, 0x79, 0x70, 0x65, 0x22] := by decide
  have h2 : escapeBytes (pyChars ("type")) = [0x74, 0x79, 0x70, 0x65] := by decide
  have h3 : jsonStringBytes (pyChars ("name")) = [0x22, 0x6E, 0x61, 0x6D, 0x65, 0x22] := by decide
  have h4 : escapeBytes (pyChars ("name")) = [0x6E, 0x61, 0x6D, 0x65] := by decide
  have h5 : jsonStringBytes (pyChars ("arguments"))
      = [0x22, 0x61, 0x72, 0x67, 0x75, 0x6D, 0x65, 0x6E, 0x74, 0x73, 0x22] := by decide
  have h6 : escapeBytes (pyChars ("arguments"))
      = [0x61, 0x72, 0x67, 0x75, 0x6D, 0x65, 0x6E, 0x74, 0x73] := by decide
  rw [show membersBytes
        [(pyChars ("type"), jsonStringBytes (pyChars ("Command"))),
         (pyChars ("name"), jsonStringBytes name),
         (pyChars ("arguments"), 0x5B :: (sepByComma (args.map jsonStringBytes) ++ [0x5D]))]
      = 0x22 :: (escapeBytes (pyChars ("type")) ++ 0x22 :: 0x3A
          :: (jsonStringBytes (pyChars ("Command")) ++ 0x2C
            :: (0x22 :: (escapeBytes (pyChars ("name")) ++ 0x22 :: 0x3A
              :: (jsonStringBytes name ++ 0x2C
                :: (0x22 :: (escapeBytes (pyChars ("arguments")) ++ 0x22 :: 0x3A
                  :: ((0x5B :: (sepByComma (args.map jsonStringBytes) ++ [0x5D]))
                    ++ [0x7D])))))))) from rfl]
  unfold commandPayload
  rw [h1, h2, h3, h4, h5, h6]
  simp [List.append_assoc]

theorem responsePayload_shape (succeeded : Bool) (message : PyStr) :
    responsePayload succeeded message
      = 0x7B :: membersBytes
          [(pyChars ("type"), jsonStringBytes (pyChars ("Response"))),
           (pyChars ("succeeded"),
             if succeeded then pyChars ("true") else pyChars ("false")),
           (pyChars ("message"), jsonStringBytes message)] := by
  have h1 : escapeBytes (pyChars ("type")) = [0x74, 0x79, 0x70, 0x65] := by decide
  have h2 : escapeBytes (pyChars ("succeeded"))
      = [0x73, 0x75, 0x63, 0x63, 0x65, 0x65, 0x64, 0x65, 0x64] := by decide
  have h3 : jsonStringBytes (pyChars ("succeeded"))
      = [0x22, 0x73, 0x75, 0x63, 0x63, 0x65, 0x65, 0x64, 0x65, 0x64, 0x22] := by decide
  have h4 : escapeBytes (pyChars ("message"))
      = [0x6D, 0x65, 0x73, 0x73, 0x61, 0x67, 0x65] := by decide
  have h5 : jsonStringBytes (pyChars ("message"))
      = [0x22, 0x6D, 0x65, 0x73, 0x73, 0x61, 0x67, 0x65, 0x22] := by decide
  have h6 : jsonStringBytes (pyChars ("type")) = [0x22, 0x74, 0x79, 0x70, 0x65, 0x22] := by decide
  rw [show membersBytes
        [(pyChars ("type"), jsonStringBytes (pyChars ("Response"))),
         (pyChars ("succeeded"),
           if succeeded then pyChars ("true") else pyChars ("false")),
         (pyChars ("message"), jsonStringBytes message)]
      = 0x22 :: (escapeBytes (pyChars ("type")) ++ 0x22 :: 0x3A
          :: (jsonStringBytes (pyChars ("Response")) ++ 0x2C
            :: (0x22 :: (escapeBytes (pyChars ("succeeded")) ++ 0x22 :: 0x3A
              :: ((if succeeded then pyChars ("true") else pyChars ("false")) ++ 0x2C
                :: (0x22 :: (escapeBytes (pyChars ("message")) ++ 0x22 :: 0x3A
                  :: (jsonStringBytes message ++ [0x7D])))))))) from rfl]
  unfold responsePayload
  rw [h1, h2, h3, h4, h5, h6]
  simp [List.append_assoc]

/-- Value-parse budget covering the three members of a Command payload. -/
def cmdB (name : PyStr) (args : List PyStr) : Nat :=
  (utf8Str name).length + strListFuel (args.map utf8Str) + 11

/-- Fuel budget for a whole Command payload. -/
def cmdFuel (name : PyStr) (args : List PyStr) : Nat := cmdB name args + 29

/-- The member triples (key content, printed value, parsed value) of a
Command payload. -/
def cmdTriples (name : PyStr) (args : List PyStr) : List (List Nat × List Nat × JVal) :=
  [(pyChars ("type"), jsonStringBytes (pyChars ("Command")),
      .jstr (utf8Str (pyChars ("Command")))),
   (pyChars ("name"), jsonStringBytes name, .jstr (utf8Str name)),
   (pyChars ("arguments"), 0x5B :: (sepByComma (args.map jsonStringBytes) ++ [0x5D]),
      .jarr (args.map (fun a => .jstr (utf8Str a))))]

theorem map_jsonStringBytes (args : List PyStr) :
    args.map jsonStringBytes = (args.map utf8Str).map jsonStrB := by
  simp [jsonStringBytes, List.map_map, Function.comp]

theorem cmdTriples_vals (name : PyStr) (args : List PyStr) :
    ∀ t ∈ cmdTriples name args, ∀ (g : Nat) (r2 : List Nat), cmdB name args ≤ g →
      parseValue g (t.2.1 ++ r2) = some (t.2.2, r2) := by
  intro t ht g r2 hBg
  have hB : (utf8Str name).length + strListFuel (args.map utf8Str) + 11 ≤ g := hBg
  rcases List.mem_cons.1 ht with rfl | ht2
  · show parseValue g (jsonStringBytes (pyChars ("Command")) ++ r2)
      = some (.jstr (utf8Str (pyChars ("Command"))), r2)
    rw [show jsonStringBytes (pyChars ("Command"))
        = jsonStrB (utf8Str (pyChars ("Command"))) from rfl]
    exact parseValue_jsonStrB (utf8Str (pyChars ("Command"))) r2 g
      (by rw [show (utf8Str (pyChars ("Command"))).length = 7 from by decide]; omega)
  · rcases List.mem_cons.1 ht2 with rfl | ht3
    · show parseValue g (jsonStringBytes name ++ r2) = some (.jstr (utf8Str name), r2)
      rw [show jsonStringBytes name = jsonStrB (utf8Str name) from rfl]
      exact parseValue_jsonStrB (utf8Str name) r2 g (by omega)
    · rcases List.mem_cons.1 ht3 with rfl | ht4
      · show parseValue g ((0x5B :: (sepByComma (args.map jsonStringBytes) ++ [0x5D])) ++ r2)
          = some (.jarr (args.map (fun a => .jstr (utf8Str a))), r2)
        have hshape : (0x5B :: (sepByComma (args.map jsonStringBytes) ++ [0x5D])) ++ r2
            = 0x5B :: (sepByComma ((args.map utf8Str).map jsonStrB) ++ 0x5D :: r2) := by
          rw [map_jsonStringBytes]
          simp [List.append_assoc]
        rw [hshape]
        rw [parseValue_strArray (args.map utf8Str) r2 g (by omega)]
        rw [List.map_map]
        rfl
      · exact absurd ht4 (List.not_mem_nil t)

theorem parseValue_commandPayload (name : PyStr) (args : List PyStr) (f : Nat) (rest : List Nat)
    (hf : cmdFuel name args ≤ f) :
    parseValue f (commandPayload name args ++ rest)
      = some (.jobj [(pyChars ("type"), .jstr (utf8Str (pyChars ("Command")))),
                     (pyChars ("name"), .jstr (utf8Str name)),
                     (pyChars ("arguments"), .jarr (args.map (fun a => .jstr (utf8Str a))))],
          rest) := by
  have hfuel : memFuel (cmdB name args) (cmdTriples name args) + 2 ≤ f := by
    have hkeys : memFuel (cmdB name args) (cmdTriples name args)
        = cmdB name args + ((pyChars ("type")).length + 3 + ((pyChars ("name")).length + 3
            + ((pyChars ("arguments")).length + 3 + 1))) := rfl
    rw [hkeys]
    rw [show (pyChars ("type")).length = 4 from by decide,
      show (pyChars ("name")).length = 4 from by decide,
      show (pyChars ("arguments")).length = 9 from by decide]
    unfold cmdFuel at hf
    omega
  have hres := parseValue_object (cmdB name args) (cmdTriples name args)
    (by simp [cmdTriples]) (cmdTriples_vals name args) f rest hfuel
  have hmap1 : (cmdTriples name args).map (fun t => (t.1, t.2.1))
      = [(pyChars ("type"), jsonStringBytes (pyChars ("Command"))),
         (pyChars ("name"), jsonStringBytes name),
         (pyChars ("arguments"), 0x5B :: (sepByComma (args.map jsonStringBytes) ++ [0x5D]))] := rfl
  have hmap2 : (cmdTriples name args).map (fun t => (t.1, t.2.2))
      = [(pyChars ("type"), .jstr (utf8Str (pyChars ("Command")))),
         (pyChars ("name"), .jstr (utf8Str name)),
         (pyChars ("arguments"), .jarr (args.map (fun a => .jstr (utf8Str a))))] := rfl
  rw [hmap1, hmap2] at hres
  rw [commandPayload_shape, List.cons_append, hres]

/-- Value-parse budget covering the three members of a Response payload. -/
def respB (message : PyStr) : Nat := (utf8Str message).length + 11

/-- Fuel budget for a whole Response payload. -/
def respFuel (message : PyStr) : Nat := respB message + 32

/-- The member triples of a Response payload. -/
def respTriples (succeeded : Bool) (message : PyStr) : List (List Nat × List Nat × JVal) :=
  [(pyChars ("type"), jsonStringBytes (pyChars ("Response")),
      .jstr (utf8Str (pyChars ("Response")))),
   (pyChars ("succeeded"), if succeeded then pyChars ("true") else pyChars ("false"),
      .jbool succeeded),
   (pyChars ("message"), jsonStringBytes message, .jstr (utf8Str message))]

theorem respTriples_vals (succeeded : Bool) (message : PyStr) :
    ∀ t ∈ respTriples succeeded message, ∀ (g : Nat) (r2 : List Nat), respB message ≤ g →
      parseValue g (t.2.1 ++ r2) = some (t.2.2, r2) := by
  intro t ht g r2 hBg
  have hB : (utf8Str message).length + 11 ≤ g := hBg
  rcases List.mem_cons.1 ht with rfl | ht2
  · show parseValue g (jsonStringBytes (pyChars ("Response")) ++ r2)
      = some (.jstr (utf8Str (pyChars ("Response"))), r2)
    rw [show jsonStringBytes (pyChars ("Response"))
        = jsonStrB (utf8Str (pyChars ("Response"))) from rfl]
    exact parseValue_jsonStrB (utf8Str (pyChars ("Response"))) r2 g
      (by rw [show (utf8Str (pyChars ("Response"))).length = 8 from by decide]; omega)
  · rcases List.mem_cons.1 ht2 with rfl | ht3
    · show parseValue g ((if succeeded then pyChars ("true") else pyChars ("false")) ++ r2)
        = some (.jbool succeeded, r2)
      cases succeeded with
      | true =>
        rw [if_pos rfl]
        exact parseValue_true r2 g (by omega)
      | false =>
        rw [if_neg (by simp)]
        exact parseValue_false r2 g (by omega)
    · rcases List.mem_cons.1 ht3 with rfl | ht4
      · show parseValue g (jsonStringBytes message ++ r2) = some (.jstr (utf8Str message), r2)
        rw [show jsonStringBytes message = jsonStrB (utf8Str message) from rfl]
        exact parseValue_jsonStrB (utf8Str message) r2 g (by omega)
      · exact absurd ht4 (List.not_mem_nil t)

theorem parseValue_responsePayload (succeeded : Bool) (message : PyStr) (f : Nat)
    (rest : List Nat) (hf : respFuel message ≤ f) :
    parseValue f (responsePayload succeeded message ++ rest)
      = some (.jobj [(pyChars ("type"), .jstr (utf8Str (pyChars ("Response")))),
                     (pyChars ("succeeded"), .jbool succeeded),
                     (pyChars ("message"), .jstr (utf8Str message))], rest) := by
  have hfuel : memFuel (respB message) (respTriples succeeded message) + 2 ≤ f := by
    have hkeys : memFuel (respB message) (respTriples succeeded message)
        = respB message + ((pyChars ("type")).length + 3 + ((pyChars ("succeeded")).length + 3
            + ((pyChars ("message")).length + 3 + 1))) := rfl
    rw [hkeys]
    rw [show (pyChars ("type")).length = 4 from by decide,
      show (pyChars ("succeeded")).length = 9 from by decide,
      show (pyChars ("message")).length = 7 from by decide]
    unfold respFuel at hf
    omega
  have hres := parseValue_object (respB message) (respTriples succeeded message)
    (by simp [respTriples]) (respTriples_vals succeeded message) f rest hfuel
  have hmap1 : (respTriples succeeded message).map (fun t => (t.1, t.2.1))
      = [(pyChars ("type"), jsonStringBytes (pyChars ("Response"))),
         (pyChars ("succeeded"), if succeeded then pyChars ("true") else pyChars ("false")),
         (pyChars ("message"), jsonStringBytes message)] := rfl
  have hmap2 : (respTriples succeeded message).map (fun t => (t.1, t.2.2))
      = [(pyChars ("type"), .jstr (utf8Str (pyChars ("Response")))),
         (pyChars ("succeeded"), .jbool succeeded),
         (pyChars ("message"), .jstr (utf8Str message))] := rfl
  rw [hmap1, hmap2] at hres
  rw [responsePayload_shape, List.cons_append, hres]

/-! ## Fuel versus payload-length bounds -/

theorem jsonEscapeByte_length_ge (b : Nat) : 1 ≤ (jsonEscapeByte b).length := by
  unfold jsonEscapeByte
  split_ifs <;> simp

theorem escapeBytes_length_ge (bs : List Nat) : bs.length ≤ (escapeBytes bs).length := by
  induction bs with
  | nil => simp [escapeBytes]
  | cons b t ih =>
    rw [escapeBytes_cons]
    simp only [List.length_append, List.length_cons]
    have := jsonEscapeByte_length_ge b
    omega

theorem jsonStrB_length (c : List Nat) :
    (jsonStrB c).length = (escapeBytes c).length + 2 := by
  simp [jsonStrB]

theorem strListFuel_le_sepLen (cs : List (List Nat)) :
    strListFuel cs ≤ 2 * (sepByComma (cs.map jsonStrB)).length + 2 := by
  induction cs with
  | nil => simp [strListFuel, sepByComma]
  | cons c t ih =>
    have hsf : strListFuel (c :: t) = c.length + 4 + strListFuel t := rfl
    have hesc := escapeBytes_length_ge c
    cases t with
    | nil =>
      rw [hsf]
      rw [show sepByComma ([c].map jsonStrB) = jsonStrB c from rfl, jsonStrB_length]
      rw [show strListFuel ([] : List (List Nat)) = 2 from rfl]
      omega
    | cons c2 t2 =>
      rw [hsf]
      rw [show sepByComma ((c :: c2 :: t2).map jsonStrB)
          = jsonStrB c ++ 0x2C :: sepByComma ((c2 :: t2).map jsonStrB) from rfl]
      simp only [List.length_append, List.length_cons, jsonStrB_length]
      omega

theorem commandPayload_length_ge (name : PyStr) (args : List PyStr) :
    43 + (utf8Str name).length + (sepByComma ((args.map utf8Str).map jsonStrB)).length
      ≤ (commandPayload name args).length := by
  have h1 : (utf8Str name).length + 2 ≤ (jsonStringBytes name).length := by
    rw [show jsonStringBytes name = jsonStrB (utf8Str name) from rfl, jsonStrB_length]
    have := escapeBytes_length_ge (utf8Str name)
    omega
  have h2 : (jsonStringBytes (pyChars ("type"))).length = 6 := by decide
  have h3 : (jsonStringBytes (pyChars ("Command"))).length = 9 := by decide
  have h4 : (jsonStringBytes (pyChars ("name"))).length = 6 := by decide
  have h5 : (jsonStringBytes (pyChars ("arguments"))).length = 11 := by decide
  have h6 : args.map jsonStringBytes = (args.map utf8Str).map jsonStrB := map_jsonStringBytes args
  unfold commandPayload
  rw [h6]
  simp only [List.length_append, List.length_cons, List.length_nil, h2, h3, h4, h5]
  omega

theorem cmdFuel_le (name : PyStr) (args : List PyStr) :
    cmdFuel name args ≤ 3 * (commandPayload name args).length + 8 := by
  have h1 := commandPayload_length_ge name args
  have h2 := strListFuel_le_sepLen (args.map utf8Str)
  unfold cmdFuel cmdB
  omega

theorem responsePayload_length_ge (succeeded : Bool) (message : PyStr) :
    40 + (utf8Str message).length ≤ (responsePayload succeeded message).length := by
  have h1 : (utf8Str message).length + 2 ≤ (jsonStringBytes message).length := by
    rw [show jsonStringBytes message = jsonStrB (utf8Str message) from rfl, jsonStrB_length]
    have := escapeBytes_length_ge (utf8Str message)
    omega
  have h2 : (jsonStringBytes (pyChars ("type"))).length = 6 := by decide
  have h3 : (jsonStringBytes (pyChars ("Response"))).length = 10 := by decide
  have h4 : (jsonStringBytes (pyChars ("succeeded"))).length = 11 := by decide
  have h5 : (jsonStringBytes (pyChars ("message"))).length = 9 := by decide
  have h6 : 4 ≤ (if succeeded then pyChars ("true") else pyChars ("false")).length := by
    cases succeeded <;> decide
  unfold responsePayload
  simp only [List.length_append, List.length_cons, List.length_nil, h2, h3, h4, h5]
  omega

theorem respFuel_le (succeeded : Bool) (message : PyStr) :
    respFuel message ≤ 3 * (responsePayload succeeded message).length + 8 := by
  have h1 := responsePayload_length_ge succeeded message
  unfold respFuel respB
  omega

/-! ## Typed conversion of the parsed payloads -/

theorem jvalToMessage_command (name : PyStr) (args : List PyStr)
    (hv : ∀ c ∈ name, c < 0x110000) (hva : ∀ a ∈ args, ∀ c ∈ a, c < 0x110000) :
    jvalToMessage (.jobj [(pyChars ("type"), .jstr (utf8Str (pyChars ("Command")))),
                          (pyChars ("name"), .jstr (utf8Str name)),
                          (pyChars ("arguments"), .jarr (args.map (fun a => .jstr (utf8Str a))))])
      = some (.command { name := name, arguments := args }) := by
  rw [show jvalToMessage (.jobj [(pyChars ("type"), .jstr (utf8Str (pyChars ("Command")))),
        (pyChars ("name"), .jstr (utf8Str name)),
        (pyChars ("arguments"), .jarr (args.map (fun a => .jstr (utf8Str a))))])
      = (match utf8DecodeAll (utf8Str name).length (utf8Str name),
            decodeStrList (args.map (fun a => .jstr (utf8Str a))) with
        | some n, some as2 => some (.command { name := n, arguments := as2 })
        | _, _ => none) from rfl]
  rw [utf8DecodeAll_encode name (utf8Str name).length hv (utf8Str_length_ge name)]
  rw [decodeStrList_encode args hva]

theorem jvalToMessage_response (succeeded : Bool) (message : PyStr)
    (hv : ∀ c ∈ message, c < 0x110000) :
    jvalToMessage (.jobj [(pyChars ("type"), .jstr (utf8Str (pyChars ("Response")))),
                          (pyChars ("succeeded"), .jbool succeeded),
                          (pyChars ("message"), .jstr (utf8Str message))])
      = some (.response { succeeded := succeeded, message := message }) := by
  rw [show jvalToMessage (.jobj [(pyChars ("type"), .jstr (utf8Str (pyChars ("Response")))),
        (pyChars ("succeeded"), .jbool succeeded),
        (pyChars ("message"), .jstr (utf8Str message))])
      = (match utf8DecodeAll (utf8Str message).length (utf8Str message) with
        | some msg => some (.response { succeeded := succeeded, message := msg })
        | none => none) from rfl]
  rw [utf8DecodeAll_encode message (utf8Str message).length hv (utf8Str_length_ge message)]

/-! ## Validity of messages and the decode master lemma -/

/-- Every code point of the Python string is a real Unicode scalar (below
0x110000); this is automatic for genuine CPython strings. -/
def validStrB (s : PyStr) : Bool := s.all (fun c => decide (c < 0x110000))

/-- Validity of a wire message: all string fields are code point lists. -/
def validMessageB : Message → Bool
  | .command c => validStrB c.name && c.arguments.all validStrB
  | .response r => validStrB r.message

theorem validStrB_spec (s : PyStr) (h : validStrB s = true) : ∀ c ∈ s, c < 0x110000 := by
  intro c hc
  have := List.all_eq_true.1 h c hc
  simpa using this

theorem msgspecDecode_encode (m : Message) (hv : validMessageB m = true) :
    msgspecDecode (msgspecJsonEncode m) = some m := by
  cases m with
  | command c =>
    simp only [validMessageB, Bool.and_eq_true] at hv
    unfold msgspecDecode
    rw [show msgspecJsonEncode (.command c) = commandPayload c.name c.arguments from rfl]
    rw [show commandPayload c.name c.arguments
        = commandPayload c.name c.arguments ++ [] from (List.append_nil _).symm]
    rw [parseValue_commandPayload c.name c.arguments _ []
      (by
        have h1 := cmdFuel_le c.name c.arguments
        have h2 : (commandPayload c.name c.arguments ++ []).length
            = (commandPayload c.name c.arguments).length := by
          rw [List.append_nil]
        rw [h2]
        omega)]
    exact jvalToMessage_command c.name c.arguments (validStrB_spec c.name hv.1)
      (fun a ha => validStrB_spec a (List.all_eq_true.1 hv.2 a ha))
  | response r =>
    simp only [validMessageB] at hv
    unfold msgspecDecode
    rw [show msgspecJsonEncode (.response r) = responsePayload r.succeeded r.message from rfl]
    rw [show responsePayload r.succeeded r.message
        = responsePayload r.succeeded r.message ++ [] from (List.append_nil _).symm]
    rw [parseValue_responsePayload r.succeeded r.message _ []
      (by
        have h1 := respFuel_le r.succeeded r.message
        have h2 : (responsePayload r.succeeded r.message ++ []).length
            = (responsePayload r.succeeded r.message).length := by
          rw [List.append_nil]
        rw [h2]
        omega)]
    exact jvalToMessage_response r.succeeded r.message (validStrB_spec r.message hv)

/-! ## Framing claims -/

/-- C1: decoding an encoded message returns exactly that message with an
empty remainder — the length-prefixed framing plus the msgspec payload
codec is a lossless round trip (the `< 2^32` side condition is
`struct.pack('!I', ...)`'s own domain). -/
theorem claim_C1_encode_decode_roundtrip (m : Message) (hv : validMessageB m = true)
    (hlen : (msgspecJsonEncode m).length < 4294967296) :
    decode_object (encode_object m) = .ok (some m, []) := by
  unfold encode_object
  have hsplit : split_encoded_length_from_object
      (pack4BE (msgspecJsonEncode m).length ++ msgspecJsonEncode m)
      = some (unpack4BE
          ((msgspecJsonEncode m).length / 0x1000000 % 0x100)
          ((msgspecJsonEncode m).length / 0x10000 % 0x100)
          ((msgspecJsonEncode m).length / 0x100 % 0x100)
          ((msgspecJsonEncode m).length % 0x100), msgspecJsonEncode m) := rfl
  unfold decode_object
  rw [hsplit]
  have hunpack : unpack4BE
      ((msgspecJsonEncode m).length / 0x1000000 % 0x100)
      ((msgspecJsonEncode m).length / 0x10000 % 0x100)
      ((msgspecJsonEncode m).length / 0x100 % 0x100)
      ((msgspecJsonEncode m).length % 0x100) = (msgspecJsonEncode m).length := by
    unfold unpack4BE
    omega
  rw [hunpack]
  show (if (msgspecJsonEncode m).length ≤ (msgspecJsonEncode m).length then
      match msgspecDecode (msgspecJsonEncode m) with
      | some m2 => Except.ok (some m2, (msgspecJsonEncode m).drop (msgspecJsonEncode m).length)
      | none => Except.error PyError.decodeError
    else Except.ok (none, pack4BE (msgspecJsonEncode m).length ++ msgspecJsonEncode m))
    = Except.ok (some m, [])
  rw [if_pos (le_refl _)]
  rw [msgspecDecode_encode m hv]
  rw [List.drop_length]

/-- Witness for C1 at the Command `show okn` and at a Response carrying a
non-ASCII, escape-needing message. -/
theorem claim_C1_witness :
    validMessageB (.command { name := pyChars ("show"), arguments := [pyChars ("okn")] }) = true
    ∧ (msgspecJsonEncode (.command { name := pyChars ("show"), arguments := [pyChars ("okn")] })).length
        < 4294967296
    ∧ decode_object (encode_object
        (.command { name := pyChars ("show"), arguments := [pyChars ("okn")] }))
      = .ok (some (.command { name := pyChars ("show"), arguments := [pyChars ("okn")] }), []) :=
  ⟨by decide, by decide,
    claim_C1_encode_decode_roundtrip
      (.command { name := pyChars ("show"), arguments := [pyChars ("okn")] })
      (by decide) (by decide)⟩

/-- C2 (the code violates the claim): on a buffer shorter than 4 bytes,
`split_encoded_length_from_object` falls through and returns the bare
`None`, and `decode_object`'s tuple unpacking of that `None` raises
`TypeError` instead of returning `(None, buffer)`; the other half of the
claim — at least 4 bytes but fewer than `4 + L` in total returns
`(None, unchanged buffer)` — does hold in the code. -/
theorem claim_C2_short_buffer_raises :
    decode_object [0] = .error .typeError
    ∧ split_encoded_length_from_object [0] = none
    ∧ ∀ (b0 b1 b2 b3 : Nat) (rest : List Nat),
        rest.length < unpack4BE b0 b1 b2 b3 →
        decode_object (b0 :: b1 :: b2 :: b3 :: rest)
          = .ok (none, b0 :: b1 :: b2 :: b3 :: rest) := by
  refine ⟨rfl, rfl, ?_⟩
  intro b0 b1 b2 b3 rest hlt
  unfold decode_object
  rw [show split_encoded_length_from_object (b0 :: b1 :: b2 :: b3 :: rest)
      = some (unpack4BE b0 b1 b2 b3, rest) from rfl]
  show (if unpack4BE b0 b1 b2 b3 ≤ rest.length then
      match msgspecDecode rest with
      | some m2 => Except.ok (some m2, rest.drop (unpack4BE b0 b1 b2 b3))
      | none => Except.error PyError.decodeError
    else Except.ok (none, b0 :: b1 :: b2 :: b3 :: rest))
    = Except.ok (none, b0 :: b1 :: b2 :: b3 :: rest)
  rw [if_neg (by omega)]

/-- Witness for the incomplete-frame part of the C2 evaluation theorem: a
declared length of 5 with only 2 buffered payload bytes leaves the buffer
untouched. -/
theorem claim_C2_witness :
    ([1, 2] : List Nat).length < unpack4BE 0 0 0 5
    ∧ decode_object [0, 0, 0, 5, 1, 2] = .ok (none, [0, 0, 0, 5, 1, 2]) :=
  ⟨by decide, claim_C2_short_buffer_raises.2.2 0 0 0 5 [1, 2] (by decide)⟩

/-- C3 (the code violates the claim): a buffer holding two complete
concatenated frames makes `decode_object` hand both payloads to the strict
msgspec decoder, which raises `DecodeError` on the trailing bytes of the
second frame; `Read.process` therefore crashes instead of extracting the
two messages (and it attempts only one decode per read in any case). -/
theorem claim_C3_concatenated_frames_raise :
    read_process []
        (encode_object (.command { name := pyChars ("a"), arguments := [] })
          ++ encode_object (.command { name := pyChars ("b"), arguments := [] }))
      = .error .decodeError := by
  decide
